import Mathlib

/-!
Shallow embedding of the `json-parser` repository (src/json.rs, src/lex.rs,
src/parse.rs) and verification of the frozen claims about it.

Modelling conventions:
* A byte buffer is a `List Nat` of byte values; the lexer walks suffixes of
  it, exactly as the Rust code walks sub-slices of `&[u8]`.
* Rust's `u16`/`u64`/`i32` arithmetic is modelled on `Nat`/`Int` with an
  explicit wrap (`% 2^16`, `% 2^64`, `wrap32`), i.e. the release-profile
  (wrapping) semantics of integer overflow.  Where a claim is about the
  debug-profile behaviour (overflow panics), a separate `..._checked`
  definition of the same source lines returns `none` at the overflow point.
* A Rust `String` (decoded string payload) is its UTF-8 byte list; `push`
  of a char appends the char's UTF-8 encoding (`utf8Encode`).
* `f64` is modelled as a sign bit plus an exact rational magnitude (`F64`).
  All float operations exercised by the claims (integer-valued casts,
  multiplication by 10 below 2^53, negation of zero) are exact in IEEE-754
  binary64, so the rational model agrees with the Rust value there; IEEE
  rounding of inexact operations is not modelled.
* `panic!`/`unreachable!` is modelled by `Option`/an explicit `panicked`
  outcome constructor.
-/

namespace json

/-- Sign-magnitude model of Rust `f64` for the values this parser produces:
`neg` is the IEEE sign bit (so `⟨true, 0⟩` is `-0.0`), `mag` the exact
magnitude. -/
structure F64 where
  neg : Bool
  mag : ℚ
deriving DecidableEq

/-- `json::Value` from src/json.rs.  `Object` is Rust's
`HashMap<String, Value>` modelled as its observable key→value mapping
(an association list updated in place by `insert`); `Array` is `Vec<Value>`. -/
inductive Value where
  | String (s : List Nat)
  | Number (n : F64)
  | Bool (b : Bool)
  | Null
  | Object (o : List (List Nat × Value))
  | Array (a : List Value)

/-- `json::Object` (`HashMap<String, Value>`), as the association list of its
entries. -/
abbrev Object := List (List Nat × Value)

/-- `json::Array` (`Vec<Value>`). -/
abbrev Array := List Value

/-- `HashMap::new()`. -/
def Object.new : Object := []

/-- `HashMap::insert`: overwrites the value of an existing key, otherwise
adds the entry. -/
def Object.insert (o : Object) (k : List Nat) (v : Value) : Object :=
  match o with
  | [] => [(k, v)]
  | (k2, v2) :: rest =>
    if k2 = k then (k, v) :: rest else (k2, v2) :: Object.insert rest k v

/-- `HashMap::get`, the observable lookup of an `Object`. -/
def Object.get (o : Object) (k : List Nat) : Option Value :=
  match o with
  | [] => none
  | (k2, v2) :: rest => if k2 = k then some v2 else Object.get rest k

end json

namespace Lex

/-- Wrapping `u64` modulus. -/
def U64 : Nat := 18446744073709551616

/-- Two's-complement wrap of an `Int` into the `i32` range (release-profile
semantics of `i32` arithmetic). -/
def wrap32 (z : Int) : Int := (z + 2147483648) % 4294967296 - 2147483648

/-- UTF-8 encoding of a code point, as performed by Rust's `String::push`. -/
def utf8Encode (c : Nat) : List Nat :=
  if c < 0x80 then [c]
  else if c < 0x800 then [0xC0 + c / 64, 0x80 + c % 64]
  else if c < 0x10000 then
    [0xE0 + c / 4096, 0x80 + c / 64 % 64, 0x80 + c % 64]
  else
    [0xF0 + c / 262144, 0x80 + c / 4096 % 64, 0x80 + c / 64 % 64, 0x80 + c % 64]

/-- `char::from_u32`: `some` exactly on valid `char` scalar values. -/
def charFromU32 (n : Nat) : Option Nat :=
  if 0x110000 ≤ n ∨ (0xD800 ≤ n ∧ n ≤ 0xDFFF) then none else some n

/-- The three digit arms of `Lex::code_unit` (src/lex.rs:176-189): note the
source accepts `b'A'..=b'Z'` and `b'a'..=b'z'`, not just `..=b'F'`/`..=b'f'`,
assigning values 10–35. -/
def hexDigit (b : Nat) : Option Nat :=
  if 0x30 ≤ b ∧ b ≤ 0x39 then some (b - 0x30)
  else if 0x41 ≤ b ∧ b ≤ 0x5A then some (b - 0x41 + 10)
  else if 0x61 ≤ b ∧ b ≤ 0x7A then some (b - 0x61 + 10)
  else none

/-- The `for _ in 0..4` loop of `Lex::code_unit`, accumulating
`code_unit = 16 * code_unit + digit` on a `u16` (wrapping semantics). -/
def code_unit_go : Nat → Nat → List Nat → Option Nat × List Nat
  | 0, cu, s => (some cu, s)
  | n + 1, cu, s =>
    match s with
    | [] => (none, [])
    | b :: rest =>
      match hexDigit b with
      | some d => code_unit_go n ((16 * cu + d) % 65536) rest
      | none => (none, b :: rest)

/-- `Lex::code_unit` (src/lex.rs:173-194). -/
def code_unit (source : List Nat) : Option Nat × List Nat :=
  code_unit_go 4 0 source

/-- Debug-profile semantics of the same accumulation: Rust's
`16 * code_unit + digit` on `u16` panics when overflow checks are enabled
(the default dev profile); `none` models that panic. -/
def code_unit_checked_go : Nat → Nat → List Nat → Option (Option Nat × List Nat)
  | 0, cu, s => some (some cu, s)
  | n + 1, cu, s =>
    match s with
    | [] => some (none, [])
    | b :: rest =>
      match hexDigit b with
      | some d =>
        if 16 * cu + d < 65536 then code_unit_checked_go n (16 * cu + d) rest
        else none
      | none => some (none, b :: rest)

/-- `Lex::code_unit` under debug-profile (overflow-checked) arithmetic. -/
def code_unit_checked (source : List Nat) : Option (Option Nat × List Nat) :=
  code_unit_checked_go 4 0 source

/-- `Lex::unicode_escape` (src/lex.rs:147-167).  The match
`[b'\\', b'u', ref rest..]` on the lookahead is rendered as a `take 2` test. -/
def unicode_escape (source : List Nat) : Nat × List Nat :=
  match code_unit source with
  | (some s1, rest) =>
    if 0xD800 ≤ s1 ∧ s1 ≤ 0xDBFF then
      let sr : Option Nat × List Nat :=
        if rest.take 2 = [0x5C, 0x75] then code_unit (rest.drop 2)
        else (none, rest)
      let codePoint : Option Nat :=
        match sr.1 with
        | some s2 =>
          if 0xDC00 ≤ s2 ∧ s2 ≤ 0xDFFF then
            some (0x10000 + ((s1 - 0xD800) <<< 10 ||| (s2 - 0xDC00)))
          else none
        | none => none
      ((codePoint.bind charFromU32).getD 0xFFFD, sr.2)
    else (((some s1).bind charFromU32).getD 0xFFFD, rest)
  | (none, rest) => (0xFFFD, rest)

/-- A kind of token, including its payload (`TokenKind`, src/lex.rs:21-36).
The `String` payload is the decoded text as UTF-8 bytes, `Number` the
modelled `f64`. -/
inductive TokenKind where
  | LeftBrace
  | RightBrace
  | LeftBracket
  | RightBracket
  | Colon
  | Comma
  | String (s : List Nat)
  | Number (n : json.F64)
  | Bool (b : Bool)
  | Null
  | Error
  | End
deriving DecidableEq

/-- A single JSON token (src/lex.rs:14-17); `span` is the consumed byte
slice. -/
structure Token where
  span : List Nat
  kind : TokenKind
deriving DecidableEq

/-- One iteration of the scanning loop of `Lex::string` (src/lex.rs:88-136):
what its match does at the current bytes.  `close` is the closing-quote arm,
`push` appends decoded bytes and continues at `rest`, `err` the
unterminated-string arm, and `dead` the `unreachable!()` arm (reachable only
on byte sequences that are not valid UTF-8; the input is a `&str`, so Rust
guarantees they never occur).  The escape arms are an if-chain on the byte
after the backslash; when none matches, the backslash is consumed alone by
the ASCII copy arm, exactly as the slice patterns fall through in the
source. -/
inductive StrStep where
  | close (rest : List Nat)
  | push (bytes : List Nat) (rest : List Nat)
  | err (rest : List Nat)
  | dead
deriving DecidableEq

/-- The match of `Lex::string` on the current bytes (one loop iteration). -/
def stringStep : List Nat → StrStep
  | [] => .err []
  | b :: rest =>
    if b = 0x22 then .close rest
    else if b = 0x5C then
      match rest with
      | c :: rest2 =>
        if c = 0x22 then .push [0x22] rest2
        else if c = 0x5C then .push [0x5C] rest2
        else if c = 0x2F then .push [0x2F] rest2
        else if c = 0x62 then .push [0x08] rest2
        else if c = 0x66 then .push [0x0C] rest2
        else if c = 0x6E then .push [0x0A] rest2
        else if c = 0x72 then .push [0x0D] rest2
        else if c = 0x74 then .push [0x09] rest2
        else if c = 0x75 then
          .push (utf8Encode (unicode_escape rest2).1) (unicode_escape rest2).2
        else .push [0x5C] (c :: rest2)
      | [] => .push [0x5C] []
    else if b ≤ 0x7F then .push [b] rest
    else if 0xC0 ≤ b ∧ b ≤ 0xDF then
      match rest with
      | b2 :: rest2 =>
        if 0x80 ≤ b2 ∧ b2 ≤ 0xBF then .push [b, b2] rest2 else .dead
      | [] => .dead
    else if 0xE0 ≤ b ∧ b ≤ 0xEF then
      match rest with
      | b2 :: rtail =>
        match rtail with
        | b3 :: rest2 =>
          if (0x80 ≤ b2 ∧ b2 ≤ 0xBF) ∧ (0x80 ≤ b3 ∧ b3 ≤ 0xBF) then
            .push [b, b2, b3] rest2
          else .dead
        | [] => .dead
      | [] => .dead
    else if 0xF0 ≤ b then
      match rest with
      | b2 :: rtail =>
        match rtail with
        | b3 :: rtail2 =>
          match rtail2 with
          | b4 :: rest2 =>
            if (0x80 ≤ b2 ∧ b2 ≤ 0xBF) ∧ (0x80 ≤ b3 ∧ b3 ≤ 0xBF) ∧
                (0x80 ≤ b4 ∧ b4 ≤ 0xBF) then
              .push [b, b2, b3, b4] rest2
            else .dead
          | [] => .dead
        | [] => .dead
      | [] => .dead
    else .dead

/-- `Lex::string` (src/lex.rs:86-140), after the open quote: iterate
`stringStep`, accumulating the decoded bytes that Rust pushes onto its
`String`.  The loop is rendered with explicit fuel so that the definition
stays structurally recursive (the `\u` arm consumes a statically unknown
number of bytes); `token` supplies `source.length + 1`, which suffices
because every iteration consumes at least one byte, so the `0` case is
unreachable there.  `none` models a reached `unreachable!()`. -/
def string : Nat → List Nat → List Nat → Option (TokenKind × List Nat)
  | 0, _, _ => none
  | fuel + 1, acc, source =>
    match stringStep source with
    | .close rest => some (.String acc, rest)
    | .err rest => some (.Error, rest)
    | .push bytes rest => string fuel (acc ++ bytes) rest
    | .dead => none

/-- The `while let [b @ b'0'..=b'9', ..]` loop over the integer digits of
`Lex::number` (src/lex.rs:214-219), with wrapping `u64` accumulation. -/
def intDigits (significand : Nat) : List Nat → Nat × List Nat
  | b :: rest =>
    if 0x30 ≤ b ∧ b ≤ 0x39 then
      intDigits ((10 * significand + (b - 0x30)) % U64) rest
    else (significand, b :: rest)
  | [] => (significand, [])

/-- Debug-profile semantics of the same loop: `10 * significand + digit` on
`u64` panics on overflow when overflow checks are enabled; `none` models
that panic. -/
def intDigits_checked (significand : Nat) : List Nat → Option (Nat × List Nat)
  | b :: rest =>
    if 0x30 ≤ b ∧ b ≤ 0x39 then
      if 10 * significand + (b - 0x30) < U64 then
        intDigits_checked (10 * significand + (b - 0x30)) rest
      else none
    else some (significand, b :: rest)
  | [] => some (significand, [])

/-- The fractional-digit loop of `Lex::number` (src/lex.rs:228-235): each
digit extends the significand and decrements the exponent; the `Bool`
records `any_digits`. -/
def fracDigits (significand : Nat) (exponent : Int) (anyDigits : Bool) :
    List Nat → Nat × Int × Bool × List Nat
  | b :: rest =>
    if 0x30 ≤ b ∧ b ≤ 0x39 then
      fracDigits ((10 * significand + (b - 0x30)) % U64) (wrap32 (exponent - 1))
        true rest
    else (significand, exponent, anyDigits, b :: rest)
  | [] => (significand, exponent, anyDigits, [])

/-- The explicit-exponent digit loop of `Lex::number` (src/lex.rs:257-263),
with wrapping `i32` accumulation. -/
def expDigits (explicitExponent : Int) (anyDigits : Bool) :
    List Nat → Int × Bool × List Nat
  | b :: rest =>
    if 0x30 ≤ b ∧ b ≤ 0x39 then
      expDigits (wrap32 (10 * explicitExponent + ((b : Int) - 0x30))) true rest
    else (explicitExponent, anyDigits, b :: rest)
  | [] => (explicitExponent, anyDigits, [])

/-- The final magnitude loop of `Lex::number` (src/lex.rs:275-282):
`for _ in 0..abs(exponent)`, multiplying by 10.0 when the exponent is
positive and dividing by 10.0 otherwise. -/
def iterMulDiv : Nat → Int → ℚ → ℚ
  | 0, _, m => m
  | n + 1, e, m => iterMulDiv n e (if 0 < e then m * 10 else m / 10)

/-- The tail of `Lex::number` after all digits are scanned
(src/lex.rs:275-285): run the magnitude loop and apply the sign. -/
def finish (positive : Bool) (significand : Nat) (exponent : Int)
    (s : List Nat) : TokenKind × List Nat :=
  (.Number ⟨!positive, iterMulDiv exponent.natAbs exponent ((significand : ℚ))⟩, s)

/-- The exponent-suffix part of `Lex::number` (src/lex.rs:242-273), after
the `e`/`E` byte. -/
def expPart (positive : Bool) (significand : Nat) (exponent : Int)
    (s : List Nat) : TokenKind × List Nat :=
  let ps : Bool × List Nat :=
    match s with
    | b :: rest =>
      if b = 0x2B then (true, rest)
      else if b = 0x2D then (false, rest)
      else (true, b :: rest)
    | [] => (true, [])
  let des := expDigits 0 false ps.2
  if des.2.1 then
    finish positive significand
      (if ps.1 then wrap32 (exponent + des.1) else wrap32 (exponent - des.1))
      des.2.2
  else (.Error, des.2.2)

/-- `Lex::number` after fraction scanning (src/lex.rs:242-245): dispatch on
an optional `e`/`E` exponent suffix, else fall through to the magnitude
computation. -/
def afterFrac (positive : Bool) (significand : Nat) (exponent : Int)
    (s : List Nat) : TokenKind × List Nat :=
  match s with
  | b :: rest =>
    if b = 0x65 ∨ b = 0x45 then expPart positive significand exponent rest
    else finish positive significand exponent (b :: rest)
  | [] => finish positive significand exponent []

/-- `Lex::number` after the integer part: the optional fraction
(src/lex.rs:224-239) and then the optional exponent. -/
def afterInt (positive : Bool) (significand : Nat) (s : List Nat) :
    TokenKind × List Nat :=
  let fr : Nat × Int × Bool × List Nat :=
    match s with
    | b :: rest =>
      if b = 0x2E then fracDigits significand 0 false rest
      else (significand, 0, true, b :: rest)
    | [] => (significand, 0, true, [])
  if fr.2.2.1 then afterFrac positive fr.1 fr.2.1 fr.2.2.2
  else (.Error, fr.2.2.2)

/-- `Lex::number` (src/lex.rs:199-286).  Called, as in `Lex::token`, on the
slice that still includes the optional `-` sign. -/
def number (source : List Nat) : TokenKind × List Nat :=
  let ps : Bool × List Nat :=
    match source with
    | b :: rest => if b = 0x2D then (false, rest) else (true, b :: rest)
    | [] => (true, [])
  match ps.2 with
  | [] => (.Error, [])
  | b :: rest =>
    if b = 0x30 then afterInt ps.1 0 rest
    else if 0x31 ≤ b ∧ b ≤ 0x39 then
      let ds := intDigits (b - 0x30) rest
      afterInt ps.1 ds.1 ds.2
    else (.Error, b :: rest)

/-- The whitespace-skipping loop at the top of `Lex::token`
(src/lex.rs:48-53). -/
def skipWs : List Nat → List Nat
  | b :: rest =>
    if b = 0x20 ∨ b = 0x09 ∨ b = 0x0D ∨ b = 0x0A then skipWs rest
    else b :: rest
  | [] => []

/-- The `(kind, rest)` dispatch of `Lex::token` (src/lex.rs:56-72), applied
after whitespace skipping.  The keyword slice patterns are rendered as
`take`/`drop`; `none` is a propagated `unreachable!()` from `Lex::string`. -/
def tokenKind : List Nat → Option (TokenKind × List Nat)
  | [] => some (.End, [])
  | b :: rest =>
    if b = 0x7B then some (.LeftBrace, rest)
    else if b = 0x7D then some (.RightBrace, rest)
    else if b = 0x5B then some (.LeftBracket, rest)
    else if b = 0x5D then some (.RightBracket, rest)
    else if b = 0x3A then some (.Colon, rest)
    else if b = 0x2C then some (.Comma, rest)
    else if b = 0x22 then string (rest.length + 1) [] rest
    else if b = 0x2D ∨ (0x30 ≤ b ∧ b ≤ 0x39) then some (number (b :: rest))
    else if b = 0x74 then
      if rest.take 3 = [0x72, 0x75, 0x65] then some (.Bool true, rest.drop 3)
      else some (.Error, rest)
    else if b = 0x66 then
      if rest.take 4 = [0x61, 0x6C, 0x73, 0x65] then some (.Bool false, rest.drop 4)
      else some (.Error, rest)
    else if b = 0x6E then
      if rest.take 3 = [0x75, 0x6C, 0x6C] then some (.Null, rest.drop 3)
      else some (.Error, rest)
    else some (.Error, rest)

/-- `Lex::token` (src/lex.rs:46-80): skip whitespace, read one token, and
attach its span (the bytes between the post-whitespace position and the new
cursor, Rust's pointer-difference slice). -/
def token (source : List Nat) : Option (Token × List Nat) :=
  match tokenKind (skipWs source) with
  | some (kind, rest) =>
    some (⟨(skipWs source).take ((skipWs source).length - rest.length), kind⟩, rest)
  | none => none

/-- Repeated calls of `Lex::token`, as in claim C9: `true` iff within `n`
calls a token of kind `End` is returned (with no panic along the way). -/
def lexEnds : Nat → List Nat → Bool
  | 0, _ => false
  | n + 1, s =>
    match token s with
    | some (t, rest) =>
      if t.kind = TokenKind.End then true else lexEnds n rest
    | none => false

end Lex

/-- Byte list of an ASCII string literal; all concrete inputs in this file
are ASCII. -/
def asciiBytes (s : String) : List Nat := s.toList.map Char.toNat

set_option maxRecDepth 4000


namespace Parse

open Lex (Token TokenKind token)

/-- `Nonterminal` (src/parse.rs:21-28): the payloads of the grammar's
nonterminals. -/
inductive Nonterminal where
  | Value (v : json.Value)
  | Object (o : json.Object)
  | Pairs (o : json.Object)
  | Pair (p : List Nat × json.Value)
  | Array (a : json.Array)
  | Elements (a : json.Array)

/-- Result of a parser state function: the `(Token, Nonterminal)` pair the
Rust functions return, together with the lexer position after the lookahead
token; `panicked` models both the parser's `panic!("unexpected token ...")`
arms and a propagated lexer `unreachable!()`; `fuelOut` is ran-out-of-fuel
(the Rust recursion has no fuel; every claim below either supplies enough
fuel for its concrete input or quantifies over the fuel). -/
inductive PRes where
  | res (t : Token) (s : List Nat) (nt : Nonterminal)
  | panicked
  | fuelOut

/-- `Parse::state1` (value = STRING *): pull the lookahead token. -/
def state1 (str : List Nat) (s : List Nat) : PRes :=
  match token s with
  | some (t, s2) => .res t s2 (.Value (.String str))
  | none => .panicked

/-- `Parse::state2` (value = NUMBER *). -/
def state2 (n : json.F64) (s : List Nat) : PRes :=
  match token s with
  | some (t, s2) => .res t s2 (.Value (.Number n))
  | none => .panicked

/-- `Parse::state3` (value = BOOL *). -/
def state3 (b : Bool) (s : List Nat) : PRes :=
  match token s with
  | some (t, s2) => .res t s2 (.Value (.Bool b))
  | none => .panicked

/-- `Parse::state4` (value = NULL *). -/
def state4 (s : List Nat) : PRes :=
  match token s with
  | some (t, s2) => .res t s2 (.Value .Null)
  | none => .panicked

/-- `Parse::state8` (pair = STRING ':' value *). -/
def state8 (t : Token) (s : List Nat) (str : List Nat) (v : json.Value) : PRes :=
  .res t s (.Pair (str, v))

/-- `Parse::state9` (pairs = pair *): a fresh object with the single pair
inserted. -/
def state9 (t : Token) (s : List Nat) (p : List Nat × json.Value) : PRes :=
  .res t s (.Pairs (json.Object.new.insert p.1 p.2))

/-- `Parse::state12` (pairs = pairs ',' pair *): insert the pair into the
accumulated object. -/
def state12 (t : Token) (s : List Nat) (o : json.Object)
    (p : List Nat × json.Value) : PRes :=
  .res t s (.Pairs (o.insert p.1 p.2))

/-- `Parse::state13` (object = '{' pairs '}' *): pull the lookahead. -/
def state13 (s : List Nat) (o : json.Object) : PRes :=
  match token s with
  | some (t, s2) => .res t s2 (.Object o)
  | none => .panicked

/-- `Parse::state14` (object = '{' '}' *). -/
def state14 (s : List Nat) : PRes :=
  match token s with
  | some (t, s2) => .res t s2 (.Object json.Object.new)
  | none => .panicked

/-- `Parse::state15` (value = object *). -/
def state15 (t : Token) (s : List Nat) (o : json.Object) : PRes :=
  .res t s (.Value (.Object o))

/-- `Parse::state17` (elements = value *): a fresh one-element array. -/
def state17 (t : Token) (s : List Nat) (v : json.Value) : PRes :=
  .res t s (.Elements [v])

/-- `Parse::state20` (elements = elements ',' value *): push the value. -/
def state20 (t : Token) (s : List Nat) (a : json.Array) (v : json.Value) : PRes :=
  .res t s (.Elements (a ++ [v]))

/-- `Parse::state21` (array = '[' elements ']' *): pull the lookahead; the
`left_bracket.take()` that breaks the enclosing `state16` loop is modelled
by `run` returning this `Array` result directly (see `run`). -/
def state21 (s : List Nat) (a : json.Array) : PRes :=
  match token s with
  | some (t, s2) => .res t s2 (.Array a)
  | none => .panicked

/-- `Parse::state22` (array = '[' ']' *). -/
def state22 (s : List Nat) : PRes :=
  match token s with
  | some (t, s2) => .res t s2 (.Array [])
  | none => .panicked

/-- `Parse::state23` (value = array *). -/
def state23 (t : Token) (s : List Nat) (a : json.Array) : PRes :=
  .res t s (.Value (.Array a))

/-- The reduction loop of `Parse::state0` (src/parse.rs:69-76): an `Object`
or `Array` nonterminal is reduced to a `Value` (states 15/23), after which
the next iteration breaks; all other nonterminals break immediately. -/
def state0Loop : PRes → PRes
  | .res t s (.Object o) => state15 t s o
  | .res t s (.Array a) => state23 t s a
  | r => r

/-- The reduction loop of `Parse::state7` (src/parse.rs:166-174): `Object`
and `Array` results are first reduced to `Value` (states 15/23), and a
`Value` breaks through `state8` into a `Pair`; the two steps are composed
here because the loop's next iteration is determined by the constructor. -/
def state7Loop (str : List Nat) : PRes → PRes
  | .res t s (.Object o) => state8 t s str (.Object o)
  | .res t s (.Array a) => state8 t s str (.Array a)
  | .res t s (.Value v) => state8 t s str v
  | r => r

/-- The reduction loop of `Parse::state11` (src/parse.rs:211-217): a `Pair`
breaks through `state12`. -/
def state11Loop (o : json.Object) : PRes → PRes
  | .res t s (.Pair p) => state12 t s o p
  | r => r

/-- The reduction loop of `Parse::state19` (src/parse.rs:333-341): like
`state7`'s loop, with `state20` instead of `state8`. -/
def state19Loop (a : json.Array) : PRes → PRes
  | .res t s (.Object o) => state20 t s a (.Object o)
  | .res t s (.Array arr) => state20 t s a (.Array arr)
  | .res t s (.Value v) => state20 t s a v
  | r => r

/-- The mutually recursive parser states of src/parse.rs, defunctionalised:
each constructor is the entry point of the like-named Rust function (the
`...Loop` constructors are the `loop`s inside `state5`/`state16`). -/
inductive Call where
  | state5 (s : List Nat)
  | state5Loop (r : PRes)
  | state6 (str : List Nat) (s : List Nat)
  | state7 (str : List Nat) (s : List Nat)
  | state10 (t : Token) (s : List Nat) (o : json.Object)
  | state11 (s : List Nat) (o : json.Object)
  | state16 (s : List Nat)
  | state16Loop (r : PRes)
  | state18 (t : Token) (s : List Nat) (a : json.Array)
  | state19 (s : List Nat) (a : json.Array)

/-- One fuelled interpreter for the mutually recursive states 5–22 of
src/parse.rs (the Rust functions call each other directly; fuel makes the
recursion structural).  The `left_bracket : &mut Option<()>` flag of
`state16` is modelled positionally: `state22` is returned directly from the
dispatch (the loop's `is_none` check breaks at once), and an `Array`
produced by `state18`→`state21` (which `take()`s the flag) is returned from
the loop, whereas an `Array` produced by a nested `state16` enters the loop
and is reduced by `state23` — exactly the flag's effect in the source. -/
def run : Nat → Call → PRes
  | 0, _ => .fuelOut
  | fuel + 1, c =>
    match c with
    | .state5 s =>
      -- Parse::state5 (src/parse.rs:116-132)
      match token s with
      | none => .panicked
      | some (t, s2) =>
        match t.kind with
        | .String str => run fuel (.state5Loop (run fuel (.state6 str s2)))
        | .RightBrace => run fuel (.state5Loop (state14 s2))
        | _ => .panicked
    | .state5Loop r =>
      match r with
      | .res t s (.Pair p) => run fuel (.state5Loop (state9 t s p))
      | .res t s (.Pairs o) => run fuel (.state5Loop (run fuel (.state10 t s o)))
      | r => r
    | .state6 str s =>
      -- Parse::state6 (src/parse.rs:135-141)
      match token s with
      | none => .panicked
      | some (t, s2) =>
        match t.kind with
        | .Colon => run fuel (.state7 str s2)
        | _ => .panicked
    | .state7 str s =>
      -- Parse::state7 (src/parse.rs:154-175)
      match token s with
      | none => .panicked
      | some (t, s2) =>
        match t.kind with
        | .String str2 => state7Loop str (state1 str2 s2)
        | .Number n => state7Loop str (state2 n s2)
        | .Bool b => state7Loop str (state3 b s2)
        | .Null => state7Loop str (state4 s2)
        | .LeftBrace => state7Loop str (run fuel (.state5 s2))
        | .LeftBracket => state7Loop str (run fuel (.state16 s2))
        | _ => .panicked
    | .state10 t s o =>
      -- Parse::state10 (src/parse.rs:194-200)
      match t.kind with
      | .Comma => run fuel (.state11 s o)
      | .RightBrace => state13 s o
      | _ => .panicked
    | .state11 s o =>
      -- Parse::state11 (src/parse.rs:204-218)
      match token s with
      | none => .panicked
      | some (t, s2) =>
        match t.kind with
        | .String str => state11Loop o (run fuel (.state6 str s2))
        | _ => .panicked
    | .state16 s =>
      -- Parse::state16 (src/parse.rs:264-290)
      match token s with
      | none => .panicked
      | some (t, s2) =>
        match t.kind with
        | .String str => run fuel (.state16Loop (state1 str s2))
        | .Number n => run fuel (.state16Loop (state2 n s2))
        | .Bool b => run fuel (.state16Loop (state3 b s2))
        | .Null => run fuel (.state16Loop (state4 s2))
        | .LeftBrace => run fuel (.state16Loop (run fuel (.state5 s2)))
        | .LeftBracket => run fuel (.state16Loop (run fuel (.state16 s2)))
        | .RightBracket => state22 s2
        | _ => .panicked
    | .state16Loop r =>
      match r with
      | .res t s (.Object o) => run fuel (.state16Loop (state15 t s o))
      | .res t s (.Array a) => run fuel (.state16Loop (state23 t s a))
      | .res t s (.Value v) => run fuel (.state16Loop (state17 t s v))
      | .res t s (.Elements a) =>
        match run fuel (.state18 t s a) with
        | .res t2 s2 (.Elements a2) => run fuel (.state16Loop (.res t2 s2 (.Elements a2)))
        | r2 => r2
      | r => r
    | .state18 t s a =>
      -- Parse::state18 (src/parse.rs:302-308)
      match t.kind with
      | .Comma => run fuel (.state19 s a)
      | .RightBracket => state21 s a
      | _ => .panicked
    | .state19 s a =>
      -- Parse::state19 (src/parse.rs:321-342)
      match token s with
      | none => .panicked
      | some (t, s2) =>
        match t.kind with
        | .String str => state19Loop a (state1 str s2)
        | .Number n => state19Loop a (state2 n s2)
        | .Bool b => state19Loop a (state3 b s2)
        | .Null => state19Loop a (state4 s2)
        | .LeftBrace => state19Loop a (run fuel (.state5 s2))
        | .LeftBracket => state19Loop a (run fuel (.state16 s2))
        | _ => .panicked

/-- `Parse::state0` (src/parse.rs:58-77): dispatch on the first token and
reduce `Object`/`Array` results to a `Value`. -/
def state0 (fuel : Nat) (t : Token) (s : List Nat) : PRes :=
  state0Loop
    (match t.kind with
      | .String str => state1 str s
      | .Number n => state2 n s
      | .Bool b => state3 b s
      | .Null => state4 s
      | .LeftBrace => run fuel (.state5 s)
      | .LeftBracket => run fuel (.state16 s)
      | _ => .panicked)

/-- Outcome of `Parse::value`: `ok` is `Ok(value)`, `err` is `Err(())` —
the unit error payload of the source's `Result<json::Value, ()>` —
`panicked` a `panic!`/`unreachable!`, and `fuelOut` insufficient fuel. -/
inductive ValueOut where
  | ok (v : json.Value)
  | err
  | panicked
  | fuelOut

/-- `Parse::value` (src/parse.rs:40-46): read the first token, run the state
machine, and require the final lookahead to be `End` with a `Value` result;
anything else is `Err(())`. -/
def value (fuel : Nat) (source : List Nat) : ValueOut :=
  match token source with
  | none => .panicked
  | some (t, s2) =>
    match state0 fuel t s2 with
    | .res t2 _ nt =>
      match t2.kind, nt with
      | .End, .Value v => .ok v
      | _, _ => .err
    | .panicked => .panicked
    | .fuelOut => .fuelOut

end Parse


/-! ### Helper lemmas -/

namespace Lex

theorem iterMulDiv_pos (n : Nat) (e : Int) (he : 0 < e) (m : ℚ) :
    iterMulDiv n e m = m * 10 ^ n := by
  induction n generalizing m with
  | zero => simp [iterMulDiv]
  | succ n ih =>
    rw [iterMulDiv, if_pos he, ih]
    ring

theorem iterMulDiv_nonpos (n : Nat) (e : Int) (he : ¬ 0 < e) (m : ℚ) :
    iterMulDiv n e m = m / 10 ^ n := by
  induction n generalizing m with
  | zero => simp [iterMulDiv]
  | succ n ih =>
    rw [iterMulDiv, if_neg he, ih, div_div, ← pow_succ']

/-- The magnitude loop of `Lex::number` computes `m * 10 ^ e` exactly (in the
rational model): repeated multiplication for a positive exponent, repeated
division for a negative one. -/
theorem iterMulDiv_eq (e : Int) (m : ℚ) :
    iterMulDiv e.natAbs e m = m * (10 : ℚ) ^ e := by
  rcases lt_trichotomy 0 e with h | h | h
  · rw [iterMulDiv_pos _ _ h, ← zpow_natCast, Int.natAbs_of_nonneg h.le]
  · subst h
    simp [iterMulDiv]
  · have hne : (e.natAbs : ℤ) = -e := by omega
    rw [iterMulDiv_nonpos _ _ (by omega), div_eq_mul_inv, ← zpow_natCast, hne,
      ← zpow_neg, neg_neg]

theorem code_unit_go_step {b d : Nat} (h : hexDigit b = some d) (n cu : Nat)
    (rest : List Nat) :
    code_unit_go (n + 1) cu (b :: rest) =
      code_unit_go n ((16 * cu + d) % 65536) rest := by
  simp [code_unit_go, h]

/-- `Lex::code_unit` on four genuine (value `< 16`) hex digits yields their
big-endian value and consumes exactly those four bytes. -/
theorem code_unit_hex {d1 d2 d3 d4 v1 v2 v3 v4 : Nat} (rest : List Nat)
    (h1 : hexDigit d1 = some v1) (h2 : hexDigit d2 = some v2)
    (h3 : hexDigit d3 = some v3) (h4 : hexDigit d4 = some v4)
    (hv1 : v1 < 16) (hv2 : v2 < 16) (hv3 : v3 < 16) (hv4 : v4 < 16) :
    code_unit (d1 :: d2 :: d3 :: d4 :: rest) =
      (some (4096 * v1 + 256 * v2 + 16 * v3 + v4), rest) := by
  rw [code_unit, code_unit_go_step h1, code_unit_go_step h2,
    code_unit_go_step h3, code_unit_go_step h4, code_unit_go]
  congr 2
  omega

theorem take_two_eq {a b : Nat} {l : List Nat}
    (h : l.take 2 = [a, b]) : l = a :: b :: l.drop 2 := by
  match l with
  | [] => simp at h
  | [x] => simp at h
  | x :: y :: t =>
    simp [List.take] at h
    simp [List.drop, h.1, h.2]

end Lex

namespace json

/-- `HashMap` last-write-wins: looking up a key after inserting it yields
the inserted value. -/
theorem Object.get_insert (o : Object) (k : List Nat) (v : Value) :
    (o.insert k v).get k = some v := by
  induction o with
  | nil => simp [Object.insert, Object.get]
  | cons kv rest ih =>
    obtain ⟨k2, v2⟩ := kv
    by_cases h : k2 = k <;> simp [Object.insert, Object.get, h, ih]

end json

namespace Lex

/-- Surrogate pairing in `Lex::unicode_escape`: a high-surrogate `\uXXXX`
followed by a low-surrogate `\uXXXX` (all eight digits genuine hex digits)
combines into `0x10000 + ((high - 0xD800) << 10 | (low - 0xDC00))` and
consumes both escapes. -/
theorem unicode_escape_pair
    {d1 d2 d3 d4 e1 e2 e3 e4 v1 v2 v3 v4 w1 w2 w3 w4 : Nat} (rest : List Nat)
    (hd1 : hexDigit d1 = some v1) (hd2 : hexDigit d2 = some v2)
    (hd3 : hexDigit d3 = some v3) (hd4 : hexDigit d4 = some v4)
    (he1 : hexDigit e1 = some w1) (he2 : hexDigit e2 = some w2)
    (he3 : hexDigit e3 = some w3) (he4 : hexDigit e4 = some w4)
    (hv : v1 < 16 ∧ v2 < 16 ∧ v3 < 16 ∧ v4 < 16)
    (hw : w1 < 16 ∧ w2 < 16 ∧ w3 < 16 ∧ w4 < 16)
    (hs1a : 0xD800 ≤ 4096 * v1 + 256 * v2 + 16 * v3 + v4)
    (hs1b : 4096 * v1 + 256 * v2 + 16 * v3 + v4 ≤ 0xDBFF)
    (hs2a : 0xDC00 ≤ 4096 * w1 + 256 * w2 + 16 * w3 + w4)
    (hs2b : 4096 * w1 + 256 * w2 + 16 * w3 + w4 ≤ 0xDFFF) :
    unicode_escape
        (d1 :: d2 :: d3 :: d4 :: 0x5C :: 0x75 :: e1 :: e2 :: e3 :: e4 :: rest) =
      (0x10000 +
        ((4096 * v1 + 256 * v2 + 16 * v3 + v4 - 0xD800) <<< 10 |||
          (4096 * w1 + 256 * w2 + 16 * w3 + w4 - 0xDC00)), rest) := by
  have hc1 := code_unit_hex (0x5C :: 0x75 :: e1 :: e2 :: e3 :: e4 :: rest)
    hd1 hd2 hd3 hd4 hv.1 hv.2.1 hv.2.2.1 hv.2.2.2
  have hc2 := code_unit_hex rest he1 he2 he3 he4 hw.1 hw.2.1 hw.2.2.1 hw.2.2.2
  have hsh : (4096 * v1 + 256 * v2 + 16 * v3 + v4 - 0xD800) <<< 10 < 2 ^ 20 :=
    Nat.shiftLeft_lt (by omega)
  have hlor : (4096 * v1 + 256 * v2 + 16 * v3 + v4 - 0xD800) <<< 10 |||
      (4096 * w1 + 256 * w2 + 16 * w3 + w4 - 0xDC00) < 2 ^ 20 :=
    Nat.bitwise_lt_two_pow hsh (by omega)
  unfold unicode_escape
  rw [hc1]
  simp only []
  rw [if_pos (And.intro hs1a hs1b),
    show ((0x5C : Nat) :: 0x75 :: e1 :: e2 :: e3 :: e4 :: rest).take 2 =
      [0x5C, 0x75] from rfl,
    if_pos rfl,
    show ((0x5C : Nat) :: 0x75 :: e1 :: e2 :: e3 :: e4 :: rest).drop 2 =
      e1 :: e2 :: e3 :: e4 :: rest from rfl,
    hc2]
  simp only []
  rw [if_pos (And.intro hs2a hs2b), Option.some_bind]
  unfold charFromU32
  rw [if_neg (by omega), Option.getD_some]

/-- A high-surrogate `\uXXXX` not followed by `\u` decodes to U+FFFD and
consumes only its own digits. -/
theorem unicode_escape_unpaired {d1 d2 d3 d4 v1 v2 v3 v4 : Nat} (rest : List Nat)
    (hd1 : hexDigit d1 = some v1) (hd2 : hexDigit d2 = some v2)
    (hd3 : hexDigit d3 = some v3) (hd4 : hexDigit d4 = some v4)
    (hv : v1 < 16 ∧ v2 < 16 ∧ v3 < 16 ∧ v4 < 16)
    (hs1a : 0xD800 ≤ 4096 * v1 + 256 * v2 + 16 * v3 + v4)
    (hs1b : 4096 * v1 + 256 * v2 + 16 * v3 + v4 ≤ 0xDBFF)
    (hnu : rest.take 2 ≠ [0x5C, 0x75]) :
    unicode_escape (d1 :: d2 :: d3 :: d4 :: rest) = (0xFFFD, rest) := by
  have hc1 := code_unit_hex rest hd1 hd2 hd3 hd4 hv.1 hv.2.1 hv.2.2.1 hv.2.2.2
  unfold unicode_escape
  rw [hc1]
  simp only []
  rw [if_pos (And.intro hs1a hs1b), if_neg hnu]
  simp

/-- A high-surrogate `\uXXXX` followed by a `\uXXXX` whose value is not a
low surrogate decodes to U+FFFD, and the second escape is consumed as part
of the failed pairing (the returned rest is the position after it). -/
theorem unicode_escape_badLow
    {d1 d2 d3 d4 e1 e2 e3 e4 v1 v2 v3 v4 w1 w2 w3 w4 : Nat} (rest : List Nat)
    (hd1 : hexDigit d1 = some v1) (hd2 : hexDigit d2 = some v2)
    (hd3 : hexDigit d3 = some v3) (hd4 : hexDigit d4 = some v4)
    (he1 : hexDigit e1 = some w1) (he2 : hexDigit e2 = some w2)
    (he3 : hexDigit e3 = some w3) (he4 : hexDigit e4 = some w4)
    (hv : v1 < 16 ∧ v2 < 16 ∧ v3 < 16 ∧ v4 < 16)
    (hw : w1 < 16 ∧ w2 < 16 ∧ w3 < 16 ∧ w4 < 16)
    (hs1a : 0xD800 ≤ 4096 * v1 + 256 * v2 + 16 * v3 + v4)
    (hs1b : 4096 * v1 + 256 * v2 + 16 * v3 + v4 ≤ 0xDBFF)
    (hs2 : ¬ (0xDC00 ≤ 4096 * w1 + 256 * w2 + 16 * w3 + w4 ∧
      4096 * w1 + 256 * w2 + 16 * w3 + w4 ≤ 0xDFFF)) :
    unicode_escape
        (d1 :: d2 :: d3 :: d4 :: 0x5C :: 0x75 :: e1 :: e2 :: e3 :: e4 :: rest) =
      (0xFFFD, rest) := by
  have hc1 := code_unit_hex (0x5C :: 0x75 :: e1 :: e2 :: e3 :: e4 :: rest)
    hd1 hd2 hd3 hd4 hv.1 hv.2.1 hv.2.2.1 hv.2.2.2
  have hc2 := code_unit_hex rest he1 he2 he3 he4 hw.1 hw.2.1 hw.2.2.1 hw.2.2.2
  unfold unicode_escape
  rw [hc1]
  simp only []
  rw [if_pos (And.intro hs1a hs1b),
    show ((0x5C : Nat) :: 0x75 :: e1 :: e2 :: e3 :: e4 :: rest).take 2 =
      [0x5C, 0x75] from rfl,
    if_pos rfl,
    show ((0x5C : Nat) :: 0x75 :: e1 :: e2 :: e3 :: e4 :: rest).drop 2 =
      e1 :: e2 :: e3 :: e4 :: rest from rfl,
    hc2]
  simp only []
  rw [if_neg hs2]
  simp

end Lex

namespace Lex

/-- Byte-shape UTF-8 validity, mirroring the four codepoint arms of
`Lex::string` (ASCII, 2-, 3- and 4-byte forms).  Every buffer Rust accepts
as `&str` satisfies it. -/
inductive Utf8Valid : List Nat → Prop
  | nil : Utf8Valid []
  | ascii {b : Nat} {rest : List Nat} :
      b ≤ 0x7F → Utf8Valid rest → Utf8Valid (b :: rest)
  | two {b b2 : Nat} {rest : List Nat} :
      0xC0 ≤ b → b ≤ 0xDF → 0x80 ≤ b2 → b2 ≤ 0xBF → Utf8Valid rest →
      Utf8Valid (b :: b2 :: rest)
  | three {b b2 b3 : Nat} {rest : List Nat} :
      0xE0 ≤ b → b ≤ 0xEF → 0x80 ≤ b2 → b2 ≤ 0xBF → 0x80 ≤ b3 → b3 ≤ 0xBF →
      Utf8Valid rest → Utf8Valid (b :: b2 :: b3 :: rest)
  | four {b b2 b3 b4 : Nat} {rest : List Nat} :
      0xF0 ≤ b → 0x80 ≤ b2 → b2 ≤ 0xBF → 0x80 ≤ b3 → b3 ≤ 0xBF → 0x80 ≤ b4 →
      b4 ≤ 0xBF → Utf8Valid rest → Utf8Valid (b :: b2 :: b3 :: b4 :: rest)

/-- A byte-suffix of a valid buffer: some continuation bytes (left behind
when an `Error` token split a multi-byte codepoint) followed by a valid
tail.  This is the invariant `Lex::token` preserves on its cursor. -/
inductive SuffixValid : List Nat → Prop
  | valid {s : List Nat} : Utf8Valid s → SuffixValid s
  | cont {b : Nat} {rest : List Nat} :
      0x80 ≤ b → b ≤ 0xBF → SuffixValid rest → SuffixValid (b :: rest)

theorem Utf8Valid.tail_ascii {b : Nat} {rest : List Nat}
    (h : Utf8Valid (b :: rest)) (hb : b ≤ 0x7F) : Utf8Valid rest := by
  cases h with
  | ascii _ h2 => exact h2
  | two h1 => omega
  | three h1 => omega
  | four h1 => omega

theorem Utf8Valid.suffix_tail {b : Nat} {rest : List Nat}
    (h : Utf8Valid (b :: rest)) : SuffixValid rest := by
  cases h with
  | ascii _ h2 => exact .valid h2
  | two _ _ h3 h4 h5 => exact .cont h3 h4 (.valid h5)
  | three _ _ h3 h4 h5 h6 h7 => exact .cont h3 h4 (.cont h5 h6 (.valid h7))
  | four _ h2 h3 h4 h5 h6 h7 h8 =>
    exact .cont h2 h3 (.cont h4 h5 (.cont h6 h7 (.valid h8)))

theorem SuffixValid.utf8_of_head {b : Nat} {rest : List Nat}
    (h : SuffixValid (b :: rest)) (hb : b ≤ 0x7F) : Utf8Valid (b :: rest) := by
  cases h with
  | valid h2 => exact h2
  | cont h1 => omega

theorem SuffixValid.tail {b : Nat} {rest : List Nat}
    (h : SuffixValid (b :: rest)) : SuffixValid rest := by
  cases h with
  | valid h2 => exact h2.suffix_tail
  | cont _ _ h3 => exact h3

theorem hexDigit_le {b d : Nat} (h : hexDigit b = some d) : b ≤ 0x7A := by
  unfold hexDigit at h
  split_ifs at h <;> omega

theorem code_unit_go_length (n : Nat) :
    ∀ (cu : Nat) (s : List Nat), ((code_unit_go n cu s).2).length ≤ s.length := by
  induction n with
  | zero => intro cu s; simp [code_unit_go]
  | succ n ih =>
    intro cu s
    match s with
    | [] => simp [code_unit_go]
    | b :: rest =>
      unfold code_unit_go
      cases hb : hexDigit b with
      | some d =>
        simp only [hb]
        exact le_trans (ih _ rest) (by simp)
      | none => simp [hb]

theorem code_unit_go_valid (n : Nat) :
    ∀ (cu : Nat) {s : List Nat}, Utf8Valid s →
      Utf8Valid (code_unit_go n cu s).2 := by
  induction n with
  | zero => intro cu s h; simpa [code_unit_go] using h
  | succ n ih =>
    intro cu s h
    match s, h with
    | [], _ => simp [code_unit_go]; exact .nil
    | b :: rest, h =>
      unfold code_unit_go
      cases hb : hexDigit b with
      | some d =>
        simp only [hb]
        exact ih _ (h.tail_ascii (by have := hexDigit_le hb; omega))
      | none => simpa [hb] using h

theorem code_unit_length (s : List Nat) :
    ((code_unit s).2).length ≤ s.length := code_unit_go_length 4 0 s

theorem code_unit_valid {s : List Nat} (h : Utf8Valid s) :
    Utf8Valid (code_unit s).2 := code_unit_go_valid 4 0 h

theorem unicode_escape_length (s : List Nat) :
    ((unicode_escape s).2).length ≤ s.length := by
  unfold unicode_escape
  have h1 := code_unit_length s
  rcases hcu : code_unit s with ⟨o, rest⟩
  rw [hcu] at h1
  cases o with
  | none => simpa using h1
  | some s1 =>
    simp only []
    split
    · by_cases htake : rest.take 2 = [0x5C, 0x75]
      · rw [if_pos htake]
        have h2 := code_unit_length (rest.drop 2)
        have h3 : (rest.drop 2).length ≤ rest.length := by simp
        exact le_trans h2 (le_trans h3 h1)
      · rw [if_neg htake]
        exact h1
    · simpa using h1

theorem unicode_escape_valid {s : List Nat} (h : Utf8Valid s) :
    Utf8Valid (unicode_escape s).2 := by
  unfold unicode_escape
  have h1 := code_unit_valid h
  rcases hcu : code_unit s with ⟨o, rest⟩
  rw [hcu] at h1
  cases o with
  | none => simpa using h1
  | some s1 =>
    simp only []
    split
    · by_cases htake : rest.take 2 = [0x5C, 0x75]
      · rw [if_pos htake]
        have hshape := take_two_eq htake
        have h2 : Utf8Valid (rest.drop 2) :=
          ((hshape ▸ h1).tail_ascii (by omega)).tail_ascii (by omega)
        exact code_unit_valid h2
      · rw [if_neg htake]
        exact h1
    · simpa using h1

end Lex

namespace Lex
set_option maxHeartbeats 2000000 in
/-- Classification of one `Lex::string` iteration: the closing quote and
every `push` consume at least one byte and leave a valid-UTF-8 tail when
the input was valid; the unterminated arm stops at the buffer end; the
`unreachable!()` arm is indeed unreachable on valid UTF-8. -/
theorem stringStep_master (s : List Nat) :
    (∀ rest, stringStep s = StrStep.close rest →
        rest.length < s.length ∧ (Utf8Valid s → Utf8Valid rest)) ∧
    (∀ bs rest, stringStep s = StrStep.push bs rest →
        rest.length < s.length ∧ (Utf8Valid s → Utf8Valid rest)) ∧
    (∀ rest, stringStep s = StrStep.err rest → rest = []) ∧
    (Utf8Valid s → stringStep s ≠ StrStep.dead) := by
  match s with
  | [] =>
    rw [stringStep.eq_1]
    refine ⟨?_, ?_, ?_, ?_⟩
    · intro rest h
      exact StrStep.noConfusion h
    · intro bs rest h
      exact StrStep.noConfusion h
    · intro rest h
      simp only [StrStep.err.injEq] at h
      exact h.symm
    · intro hv h
      exact StrStep.noConfusion h
  | [b] =>
    by_cases h1 : b = 34
    · -- b = 34
      have hstep : stringStep [b] = StrStep.close [] := by
        rw [stringStep.eq_5, if_pos h1]
      rw [hstep]
      refine ⟨?_, ?_, ?_, ?_⟩
      · intro rest h
        simp only [StrStep.close.injEq] at h
        subst h
        refine ⟨by simp only [List.length_cons, List.length_nil]; omega, ?_⟩
        intro hv
        exact Utf8Valid.nil
      · intro bs rest h
        exact StrStep.noConfusion h
      · intro rest h
        exact StrStep.noConfusion h
      · intro hv h
        exact StrStep.noConfusion h
    · -- not b = 34
      by_cases h2 : b = 92
      · -- b = 92
        have hstep : stringStep [b] = StrStep.push [92] [] := by
          rw [stringStep.eq_5, if_neg h1, if_pos h2]
        rw [hstep]
        refine ⟨?_, ?_, ?_, ?_⟩
        · intro rest h
          exact StrStep.noConfusion h
        · intro bs rest h
          simp only [StrStep.push.injEq] at h
          obtain ⟨hb2, hr⟩ := h
          subst hr
          refine ⟨by simp only [List.length_cons, List.length_nil]; omega, ?_⟩
          intro hv
          exact Utf8Valid.nil
        · intro rest h
          exact StrStep.noConfusion h
        · intro hv h
          exact StrStep.noConfusion h
      · -- not b = 92
        by_cases h3 : b ≤ 127
        · -- b ≤ 127
          have hstep : stringStep [b] = StrStep.push [b] [] := by
            rw [stringStep.eq_5, if_neg h1, if_neg h2, if_pos h3]
          rw [hstep]
          refine ⟨?_, ?_, ?_, ?_⟩
          · intro rest h
            exact StrStep.noConfusion h
          · intro bs rest h
            simp only [StrStep.push.injEq] at h
            obtain ⟨hb2, hr⟩ := h
            subst hr
            refine ⟨by simp only [List.length_cons, List.length_nil]; omega, ?_⟩
            intro hv
            exact Utf8Valid.nil
          · intro rest h
            exact StrStep.noConfusion h
          · intro hv h
            exact StrStep.noConfusion h
        · -- not b ≤ 127
          by_cases h4 : 192 ≤ b ∧ b ≤ 223
          · -- 192 ≤ b ∧ b ≤ 223
            have hstep : stringStep [b] = StrStep.dead := by
              rw [stringStep.eq_5, if_neg h1, if_neg h2, if_neg h3, if_pos h4]
            rw [hstep]
            refine ⟨?_, ?_, ?_, ?_⟩
            · intro rest h
              exact StrStep.noConfusion h
            · intro bs rest h
              exact StrStep.noConfusion h
            · intro rest h
              exact StrStep.noConfusion h
            · intro hv
              exfalso
              cases hv <;> omega
          · -- not 192 ≤ b ∧ b ≤ 223
            by_cases h5 : 224 ≤ b ∧ b ≤ 239
            · -- 224 ≤ b ∧ b ≤ 239
              have hstep : stringStep [b] = StrStep.dead := by
                rw [stringStep.eq_5, if_neg h1, if_neg h2, if_neg h3, if_neg h4, if_pos h5]
              rw [hstep]
              refine ⟨?_, ?_, ?_, ?_⟩
              · intro rest h
                exact StrStep.noConfusion h
              · intro bs rest h
                exact StrStep.noConfusion h
              · intro rest h
                exact StrStep.noConfusion h
              · intro hv
                exfalso
                cases hv <;> omega
            · -- not 224 ≤ b ∧ b ≤ 239
              by_cases h6 : 240 ≤ b
              · -- 240 ≤ b
                have hstep : stringStep [b] = StrStep.dead := by
                  rw [stringStep.eq_5, if_neg h1, if_neg h2, if_neg h3, if_neg h4, if_neg h5, if_pos h6]
                rw [hstep]
                refine ⟨?_, ?_, ?_, ?_⟩
                · intro rest h
                  exact StrStep.noConfusion h
                · intro bs rest h
                  exact StrStep.noConfusion h
                · intro rest h
                  exact StrStep.noConfusion h
                · intro hv
                  exfalso
                  cases hv <;> omega
              · -- not 240 ≤ b
                have hstep : stringStep [b] = StrStep.dead := by
                  rw [stringStep.eq_5, if_neg h1, if_neg h2, if_neg h3, if_neg h4, if_neg h5, if_neg h6]
                rw [hstep]
                refine ⟨?_, ?_, ?_, ?_⟩
                · intro rest h
                  exact StrStep.noConfusion h
                · intro bs rest h
                  exact StrStep.noConfusion h
                · intro rest h
                  exact StrStep.noConfusion h
                · intro hv
                  exfalso
                  cases hv <;> omega
  | [b, c] =>
    by_cases h1 : b = 34
    · -- b = 34
      have hstep : stringStep [b, c] = StrStep.close [c] := by
        rw [stringStep.eq_4, if_pos h1]
      rw [hstep]
      refine ⟨?_, ?_, ?_, ?_⟩
      · intro rest h
        simp only [StrStep.close.injEq] at h
        subst h
        refine ⟨by simp only [List.length_cons, List.length_nil]; omega, ?_⟩
        intro hv
        exact hv.tail_ascii (by omega)
      · intro bs rest h
        exact StrStep.noConfusion h
      · intro rest h
        exact StrStep.noConfusion h
      · intro hv h
        exact StrStep.noConfusion h
    · -- not b = 34
      by_cases h2 : b = 92
      · -- b = 92
        by_cases h3 : c = 34
        · -- c = 34
          have hstep : stringStep [b, c] = StrStep.push [34] [] := by
            rw [stringStep.eq_4, if_neg h1, if_pos h2, if_pos h3]
          rw [hstep]
          refine ⟨?_, ?_, ?_, ?_⟩
          · intro rest h
            exact StrStep.noConfusion h
          · intro bs rest h
            simp only [StrStep.push.injEq] at h
            obtain ⟨hb2, hr⟩ := h
            subst hr
            refine ⟨by simp only [List.length_cons, List.length_nil]; omega, ?_⟩
            intro hv
            exact Utf8Valid.nil
          · intro rest h
            exact StrStep.noConfusion h
          · intro hv h
            exact StrStep.noConfusion h
        · -- not c = 34
          by_cases h4 : c = 92
          · -- c = 92
            have hstep : stringStep [b, c] = StrStep.push [92] [] := by
              rw [stringStep.eq_4, if_neg h1, if_pos h2, if_neg h3, if_pos h4]
            rw [hstep]
            refine ⟨?_, ?_, ?_, ?_⟩
            · intro rest h
              exact StrStep.noConfusion h
            · intro bs rest h
              simp only [StrStep.push.injEq] at h
              obtain ⟨hb2, hr⟩ := h
              subst hr
              refine ⟨by simp only [List.length_cons, List.length_nil]; omega, ?_⟩
              intro hv
              exact Utf8Valid.nil
            · intro rest h
              exact StrStep.noConfusion h
            · intro hv h
              exact StrStep.noConfusion h
          · -- not c = 92
            by_cases h5 : c = 47
            · -- c = 47
              have hstep : stringStep [b, c] = StrStep.push [47] [] := by
                rw [stringStep.eq_4, if_neg h1, if_pos h2, if_neg h3, if_neg h4, if_pos h5]
              rw [hstep]
              refine ⟨?_, ?_, ?_, ?_⟩
              · intro rest h
                exact StrStep.noConfusion h
              · intro bs rest h
                simp only [StrStep.push.injEq] at h
                obtain ⟨hb2, hr⟩ := h
                subst hr
                refine ⟨by simp only [List.length_cons, List.length_nil]; omega, ?_⟩
                intro hv
                exact Utf8Valid.nil
              · intro rest h
                exact StrStep.noConfusion h
              · intro hv h
                exact StrStep.noConfusion h
            · -- not c = 47
              by_cases h6 : c = 98
              · -- c = 98
                have hstep : stringStep [b, c] = StrStep.push [8] [] := by
                  rw [stringStep.eq_4, if_neg h1, if_pos h2, if_neg h3, if_neg h4, if_neg h5, if_pos h6]
                rw [hstep]
                refine ⟨?_, ?_, ?_, ?_⟩
                · intro rest h
                  exact StrStep.noConfusion h
                · intro bs rest h
                  simp only [StrStep.push.injEq] at h
                  obtain ⟨hb2, hr⟩ := h
                  subst hr
                  refine ⟨by simp only [List.length_cons, List.length_nil]; omega, ?_⟩
                  intro hv
                  exact Utf8Valid.nil
                · intro rest h
                  exact StrStep.noConfusion h
                · intro hv h
                  exact StrStep.noConfusion h
              · -- not c = 98
                by_cases h7 : c = 102
                · -- c = 102
                  have hstep : stringStep [b, c] = StrStep.push [12] [] := by
                    rw [stringStep.eq_4, if_neg h1, if_pos h2, if_neg h3, if_neg h4, if_neg h5, if_neg h6, if_pos h7]
                  rw [hstep]
                  refine ⟨?_, ?_, ?_, ?_⟩
                  · intro rest h
                    exact StrStep.noConfusion h
                  · intro bs rest h
                    simp only [StrStep.push.injEq] at h
                    obtain ⟨hb2, hr⟩ := h
                    subst hr
                    refine ⟨by simp only [List.length_cons, List.length_nil]; omega, ?_⟩
                    intro hv
                    exact Utf8Valid.nil
                  · intro rest h
                    exact StrStep.noConfusion h
                  · intro hv h
                    exact StrStep.noConfusion h
                · -- not c = 102
                  by_cases h8 : c = 110
                  · -- c = 110
                    have hstep : stringStep [b, c] = StrStep.push [10] [] := by
                      rw [stringStep.eq_4, if_neg h1, if_pos h2, if_neg h3, if_neg h4, if_neg h5, if_neg h6, if_neg h7, if_pos h8]
                    rw [hstep]
                    refine ⟨?_, ?_, ?_, ?_⟩
                    · intro rest h
                      exact StrStep.noConfusion h
                    · intro bs rest h
                      simp only [StrStep.push.injEq] at h
                      obtain ⟨hb2, hr⟩ := h
                      subst hr
                      refine ⟨by simp only [List.length_cons, List.length_nil]; omega, ?_⟩
                      intro hv
                      exact Utf8Valid.nil
                    · intro rest h
                      exact StrStep.noConfusion h
                    · intro hv h
                      exact StrStep.noConfusion h
                  · -- not c = 110
                    by_cases h9 : c = 114
                    · -- c = 114
                      have hstep : stringStep [b, c] = StrStep.push [13] [] := by
                        rw [stringStep.eq_4, if_neg h1, if_pos h2, if_neg h3, if_neg h4, if_neg h5, if_neg h6, if_neg h7, if_neg h8, if_pos h9]
                      rw [hstep]
                      refine ⟨?_, ?_, ?_, ?_⟩
                      · intro rest h
                        exact StrStep.noConfusion h
                      · intro bs rest h
                        simp only [StrStep.push.injEq] at h
                        obtain ⟨hb2, hr⟩ := h
                        subst hr
                        refine ⟨by simp only [List.length_cons, List.length_nil]; omega, ?_⟩
                        intro hv
                        exact Utf8Valid.nil
                      · intro rest h
                        exact StrStep.noConfusion h
                      · intro hv h
                        exact StrStep.noConfusion h
                    · -- not c = 114
                      by_cases h10 : c = 116
                      · -- c = 116
                        have hstep : stringStep [b, c] = StrStep.push [9] [] := by
                          rw [stringStep.eq_4, if_neg h1, if_pos h2, if_neg h3, if_neg h4, if_neg h5, if_neg h6, if_neg h7, if_neg h8, if_neg h9, if_pos h10]
                        rw [hstep]
                        refine ⟨?_, ?_, ?_, ?_⟩
                        · intro rest h
                          exact StrStep.noConfusion h
                        · intro bs rest h
                          simp only [StrStep.push.injEq] at h
                          obtain ⟨hb2, hr⟩ := h
                          subst hr
                          refine ⟨by simp only [List.length_cons, List.length_nil]; omega, ?_⟩
                          intro hv
                          exact Utf8Valid.nil
                        · intro rest h
                          exact StrStep.noConfusion h
                        · intro hv h
                          exact StrStep.noConfusion h
                      · -- not c = 116
                        by_cases h11 : c = 117
                        · -- c = 117
                          have hstep : stringStep [b, c] = StrStep.push (utf8Encode (unicode_escape []).1) (unicode_escape []).2 := by
                            rw [stringStep.eq_4, if_neg h1, if_pos h2, if_neg h3, if_neg h4, if_neg h5, if_neg h6, if_neg h7, if_neg h8, if_neg h9, if_neg h10, if_pos h11]
                          rw [hstep]
                          refine ⟨?_, ?_, ?_, ?_⟩
                          · intro rest h
                            exact StrStep.noConfusion h
                          · intro bs rest h
                            simp only [StrStep.push.injEq] at h
                            obtain ⟨hb2, hr⟩ := h
                            subst hr
                            constructor
                            · refine lt_of_le_of_lt (unicode_escape_length _) ?_
                              simp only [List.length_cons, List.length_nil]
                              omega
                            · intro hv
                              refine unicode_escape_valid ?_
                              first
                              | exact Utf8Valid.nil
                              | exact (hv.tail_ascii (by omega)).tail_ascii (by omega)
                          · intro rest h
                            exact StrStep.noConfusion h
                          · intro hv h
                            exact StrStep.noConfusion h
                        · -- not c = 117
                          have hstep : stringStep [b, c] = StrStep.push [92] [c] := by
                            rw [stringStep.eq_4, if_neg h1, if_pos h2, if_neg h3, if_neg h4, if_neg h5, if_neg h6, if_neg h7, if_neg h8, if_neg h9, if_neg h10, if_neg h11]
                          rw [hstep]
                          refine ⟨?_, ?_, ?_, ?_⟩
                          · intro rest h
                            exact StrStep.noConfusion h
                          · intro bs rest h
                            simp only [StrStep.push.injEq] at h
                            obtain ⟨hb2, hr⟩ := h
                            subst hr
                            refine ⟨by simp only [List.length_cons, List.length_nil]; omega, ?_⟩
                            intro hv
                            exact hv.tail_ascii (by omega)
                          · intro rest h
                            exact StrStep.noConfusion h
                          · intro hv h
                            exact StrStep.noConfusion h
      · -- not b = 92
        by_cases h3 : b ≤ 127
        · -- b ≤ 127
          have hstep : stringStep [b, c] = StrStep.push [b] [c] := by
            rw [stringStep.eq_4, if_neg h1, if_neg h2, if_pos h3]
          rw [hstep]
          refine ⟨?_, ?_, ?_, ?_⟩
          · intro rest h
            exact StrStep.noConfusion h
          · intro bs rest h
            simp only [StrStep.push.injEq] at h
            obtain ⟨hb2, hr⟩ := h
            subst hr
            refine ⟨by simp only [List.length_cons, List.length_nil]; omega, ?_⟩
            intro hv
            exact hv.tail_ascii (by omega)
          · intro rest h
            exact StrStep.noConfusion h
          · intro hv h
            exact StrStep.noConfusion h
        · -- not b ≤ 127
          by_cases h4 : 192 ≤ b ∧ b ≤ 223
          · -- 192 ≤ b ∧ b ≤ 223
            by_cases h5 : 128 ≤ c ∧ c ≤ 191
            · -- 128 ≤ c ∧ c ≤ 191
              have hstep : stringStep [b, c] = StrStep.push [b, c] [] := by
                rw [stringStep.eq_4, if_neg h1, if_neg h2, if_neg h3, if_pos h4, if_pos h5]
              rw [hstep]
              refine ⟨?_, ?_, ?_, ?_⟩
              · intro rest h
                exact StrStep.noConfusion h
              · intro bs rest h
                simp only [StrStep.push.injEq] at h
                obtain ⟨hb2, hr⟩ := h
                subst hr
                refine ⟨by simp only [List.length_cons, List.length_nil]; omega, ?_⟩
                intro hv
                exact Utf8Valid.nil
              · intro rest h
                exact StrStep.noConfusion h
              · intro hv h
                exact StrStep.noConfusion h
            · -- not 128 ≤ c ∧ c ≤ 191
              have hstep : stringStep [b, c] = StrStep.dead := by
                rw [stringStep.eq_4, if_neg h1, if_neg h2, if_neg h3, if_pos h4, if_neg h5]
              rw [hstep]
              refine ⟨?_, ?_, ?_, ?_⟩
              · intro rest h
                exact StrStep.noConfusion h
              · intro bs rest h
                exact StrStep.noConfusion h
              · intro rest h
                exact StrStep.noConfusion h
              · intro hv
                exfalso
                cases hv <;> omega
          · -- not 192 ≤ b ∧ b ≤ 223
            by_cases h5 : 224 ≤ b ∧ b ≤ 239
            · -- 224 ≤ b ∧ b ≤ 239
              have hstep : stringStep [b, c] = StrStep.dead := by
                rw [stringStep.eq_4, if_neg h1, if_neg h2, if_neg h3, if_neg h4, if_pos h5]
              rw [hstep]
              refine ⟨?_, ?_, ?_, ?_⟩
              · intro rest h
                exact StrStep.noConfusion h
              · intro bs rest h
                exact StrStep.noConfusion h
              · intro rest h
                exact StrStep.noConfusion h
              · intro hv
                exfalso
                cases hv <;> omega
            · -- not 224 ≤ b ∧ b ≤ 239
              by_cases h6 : 240 ≤ b
              · -- 240 ≤ b
                have hstep : stringStep [b, c] = StrStep.dead := by
                  rw [stringStep.eq_4, if_neg h1, if_neg h2, if_neg h3, if_neg h4, if_neg h5, if_pos h6]
                rw [hstep]
                refine ⟨?_, ?_, ?_, ?_⟩
                · intro rest h
                  exact StrStep.noConfusion h
                · intro bs rest h
                  exact StrStep.noConfusion h
                · intro rest h
                  exact StrStep.noConfusion h
                · intro hv
                  exfalso
                  cases hv <;> omega
              · -- not 240 ≤ b
                have hstep : stringStep [b, c] = StrStep.dead := by
                  rw [stringStep.eq_4, if_neg h1, if_neg h2, if_neg h3, if_neg h4, if_neg h5, if_neg h6]
                rw [hstep]
                refine ⟨?_, ?_, ?_, ?_⟩
                · intro rest h
                  exact StrStep.noConfusion h
                · intro bs rest h
                  exact StrStep.noConfusion h
                · intro rest h
                  exact StrStep.noConfusion h
                · intro hv
                  exfalso
                  cases hv <;> omega
  | [b, c, d] =>
    by_cases h1 : b = 34
    · -- b = 34
      have hstep : stringStep [b, c, d] = StrStep.close [c, d] := by
        rw [stringStep.eq_3, if_pos h1]
      rw [hstep]
      refine ⟨?_, ?_, ?_, ?_⟩
      · intro rest h
        simp only [StrStep.close.injEq] at h
        subst h
        refine ⟨by simp only [List.length_cons, List.length_nil]; omega, ?_⟩
        intro hv
        exact hv.tail_ascii (by omega)
      · intro bs rest h
        exact StrStep.noConfusion h
      · intro rest h
        exact StrStep.noConfusion h
      · intro hv h
        exact StrStep.noConfusion h
    · -- not b = 34
      by_cases h2 : b = 92
      · -- b = 92
        by_cases h3 : c = 34
        · -- c = 34
          have hstep : stringStep [b, c, d] = StrStep.push [34] [d] := by
            rw [stringStep.eq_3, if_neg h1, if_pos h2, if_pos h3]
          rw [hstep]
          refine ⟨?_, ?_, ?_, ?_⟩
          · intro rest h
            exact StrStep.noConfusion h
          · intro bs rest h
            simp only [StrStep.push.injEq] at h
            obtain ⟨hb2, hr⟩ := h
            subst hr
            refine ⟨by simp only [List.length_cons, List.length_nil]; omega, ?_⟩
            intro hv
            exact (hv.tail_ascii (by omega)).tail_ascii (by omega)
          · intro rest h
            exact StrStep.noConfusion h
          · intro hv h
            exact StrStep.noConfusion h
        · -- not c = 34
          by_cases h4 : c = 92
          · -- c = 92
            have hstep : stringStep [b, c, d] = StrStep.push [92] [d] := by
              rw [stringStep.eq_3, if_neg h1, if_pos h2, if_neg h3, if_pos h4]
            rw [hstep]
            refine ⟨?_, ?_, ?_, ?_⟩
            · intro rest h
              exact StrStep.noConfusion h
            · intro bs rest h
              simp only [StrStep.push.injEq] at h
              obtain ⟨hb2, hr⟩ := h
              subst hr
              refine ⟨by simp only [List.length_cons, List.length_nil]; omega, ?_⟩
              intro hv
              exact (hv.tail_ascii (by omega)).tail_ascii (by omega)
            · intro rest h
              exact StrStep.noConfusion h
            · intro hv h
              exact StrStep.noConfusion h
          · -- not c = 92
            by_cases h5 : c = 47
            · -- c = 47
              have hstep : stringStep [b, c, d] = StrStep.push [47] [d] := by
                rw [stringStep.eq_3, if_neg h1, if_pos h2, if_neg h3, if_neg h4, if_pos h5]
              rw [hstep]
              refine ⟨?_, ?_, ?_, ?_⟩
              · intro rest h
                exact StrStep.noConfusion h
              · intro bs rest h
                simp only [StrStep.push.injEq] at h
                obtain ⟨hb2, hr⟩ := h
                subst hr
                refine ⟨by simp only [List.length_cons, List.length_nil]; omega, ?_⟩
                intro hv
                exact (hv.tail_ascii (by omega)).tail_ascii (by omega)
              · intro rest h
                exact StrStep.noConfusion h
              · intro hv h
                exact StrStep.noConfusion h
            · -- not c = 47
              by_cases h6 : c = 98
              · -- c = 98
                have hstep : stringStep [b, c, d] = StrStep.push [8] [d] := by
                  rw [stringStep.eq_3, if_neg h1, if_pos h2, if_neg h3, if_neg h4, if_neg h5, if_pos h6]
                rw [hstep]
                refine ⟨?_, ?_, ?_, ?_⟩
                · intro rest h
                  exact StrStep.noConfusion h
                · intro bs rest h
                  simp only [StrStep.push.injEq] at h
                  obtain ⟨hb2, hr⟩ := h
                  subst hr
                  refine ⟨by simp only [List.length_cons, List.length_nil]; omega, ?_⟩
                  intro hv
                  exact (hv.tail_ascii (by omega)).tail_ascii (by omega)
                · intro rest h
                  exact StrStep.noConfusion h
                · intro hv h
                  exact StrStep.noConfusion h
              · -- not c = 98
                by_cases h7 : c = 102
                · -- c = 102
                  have hstep : stringStep [b, c, d] = StrStep.push [12] [d] := by
                    rw [stringStep.eq_3, if_neg h1, if_pos h2, if_neg h3, if_neg h4, if_neg h5, if_neg h6, if_pos h7]
                  rw [hstep]
                  refine ⟨?_, ?_, ?_, ?_⟩
                  · intro rest h
                    exact StrStep.noConfusion h
                  · intro bs rest h
                    simp only [StrStep.push.injEq] at h
                    obtain ⟨hb2, hr⟩ := h
                    subst hr
                    refine ⟨by simp only [List.length_cons, List.length_nil]; omega, ?_⟩
                    intro hv
                    exact (hv.tail_ascii (by omega)).tail_ascii (by omega)
                  · intro rest h
                    exact StrStep.noConfusion h
                  · intro hv h
                    exact StrStep.noConfusion h
                · -- not c = 102
                  by_cases h8 : c = 110
                  · -- c = 110
                    have hstep : stringStep [b, c, d] = StrStep.push [10] [d] := by
                      rw [stringStep.eq_3, if_neg h1, if_pos h2, if_neg h3, if_neg h4, if_neg h5, if_neg h6, if_neg h7, if_pos h8]
                    rw [hstep]
                    refine ⟨?_, ?_, ?_, ?_⟩
                    · intro rest h
                      exact StrStep.noConfusion h
                    · intro bs rest h
                      simp only [StrStep.push.injEq] at h
                      obtain ⟨hb2, hr⟩ := h
                      subst hr
                      refine ⟨by simp only [List.length_cons, List.length_nil]; omega, ?_⟩
                      intro hv
                      exact (hv.tail_ascii (by omega)).tail_ascii (by omega)
                    · intro rest h
                      exact StrStep.noConfusion h
                    · intro hv h
                      exact StrStep.noConfusion h
                  · -- not c = 110
                    by_cases h9 : c = 114
                    · -- c = 114
                      have hstep : stringStep [b, c, d] = StrStep.push [13] [d] := by
                        rw [stringStep.eq_3, if_neg h1, if_pos h2, if_neg h3, if_neg h4, if_neg h5, if_neg h6, if_neg h7, if_neg h8, if_pos h9]
                      rw [hstep]
                      refine ⟨?_, ?_, ?_, ?_⟩
                      · intro rest h
                        exact StrStep.noConfusion h
                      · intro bs rest h
                        simp only [StrStep.push.injEq] at h
                        obtain ⟨hb2, hr⟩ := h
                        subst hr
                        refine ⟨by simp only [List.length_cons, List.length_nil]; omega, ?_⟩
                        intro hv
                        exact (hv.tail_ascii (by omega)).tail_ascii (by omega)
                      · intro rest h
                        exact StrStep.noConfusion h
                      · intro hv h
                        exact StrStep.noConfusion h
                    · -- not c = 114
                      by_cases h10 : c = 116
                      · -- c = 116
                        have hstep : stringStep [b, c, d] = StrStep.push [9] [d] := by
                          rw [stringStep.eq_3, if_neg h1, if_pos h2, if_neg h3, if_neg h4, if_neg h5, if_neg h6, if_neg h7, if_neg h8, if_neg h9, if_pos h10]
                        rw [hstep]
                        refine ⟨?_, ?_, ?_, ?_⟩
                        · intro rest h
                          exact StrStep.noConfusion h
                        · intro bs rest h
                          simp only [StrStep.push.injEq] at h
                          obtain ⟨hb2, hr⟩ := h
                          subst hr
                          refine ⟨by simp only [List.length_cons, List.length_nil]; omega, ?_⟩
                          intro hv
                          exact (hv.tail_ascii (by omega)).tail_ascii (by omega)
                        · intro rest h
                          exact StrStep.noConfusion h
                        · intro hv h
                          exact StrStep.noConfusion h
                      · -- not c = 116
                        by_cases h11 : c = 117
                        · -- c = 117
                          have hstep : stringStep [b, c, d] = StrStep.push (utf8Encode (unicode_escape [d]).1) (unicode_escape [d]).2 := by
                            rw [stringStep.eq_3, if_neg h1, if_pos h2, if_neg h3, if_neg h4, if_neg h5, if_neg h6, if_neg h7, if_neg h8, if_neg h9, if_neg h10, if_pos h11]
                          rw [hstep]
                          refine ⟨?_, ?_, ?_, ?_⟩
                          · intro rest h
                            exact StrStep.noConfusion h
                          · intro bs rest h
                            simp only [StrStep.push.injEq] at h
                            obtain ⟨hb2, hr⟩ := h
                            subst hr
                            constructor
                            · refine lt_of_le_of_lt (unicode_escape_length _) ?_
                              simp only [List.length_cons, List.length_nil]
                              omega
                            · intro hv
                              refine unicode_escape_valid ?_
                              first
                              | exact Utf8Valid.nil
                              | exact (hv.tail_ascii (by omega)).tail_ascii (by omega)
                          · intro rest h
                            exact StrStep.noConfusion h
                          · intro hv h
                            exact StrStep.noConfusion h
                        · -- not c = 117
                          have hstep : stringStep [b, c, d] = StrStep.push [92] [c, d] := by
                            rw [stringStep.eq_3, if_neg h1, if_pos h2, if_neg h3, if_neg h4, if_neg h5, if_neg h6, if_neg h7, if_neg h8, if_neg h9, if_neg h10, if_neg h11]
                          rw [hstep]
                          refine ⟨?_, ?_, ?_, ?_⟩
                          · intro rest h
                            exact StrStep.noConfusion h
                          · intro bs rest h
                            simp only [StrStep.push.injEq] at h
                            obtain ⟨hb2, hr⟩ := h
                            subst hr
                            refine ⟨by simp only [List.length_cons, List.length_nil]; omega, ?_⟩
                            intro hv
                            exact hv.tail_ascii (by omega)
                          · intro rest h
                            exact StrStep.noConfusion h
                          · intro hv h
                            exact StrStep.noConfusion h
      · -- not b = 92
        by_cases h3 : b ≤ 127
        · -- b ≤ 127
          have hstep : stringStep [b, c, d] = StrStep.push [b] [c, d] := by
            rw [stringStep.eq_3, if_neg h1, if_neg h2, if_pos h3]
          rw [hstep]
          refine ⟨?_, ?_, ?_, ?_⟩
          · intro rest h
            exact StrStep.noConfusion h
          · intro bs rest h
            simp only [StrStep.push.injEq] at h
            obtain ⟨hb2, hr⟩ := h
            subst hr
            refine ⟨by simp only [List.length_cons, List.length_nil]; omega, ?_⟩
            intro hv
            exact hv.tail_ascii (by omega)
          · intro rest h
            exact StrStep.noConfusion h
          · intro hv h
            exact StrStep.noConfusion h
        · -- not b ≤ 127
          by_cases h4 : 192 ≤ b ∧ b ≤ 223
          · -- 192 ≤ b ∧ b ≤ 223
            by_cases h5 : 128 ≤ c ∧ c ≤ 191
            · -- 128 ≤ c ∧ c ≤ 191
              have hstep : stringStep [b, c, d] = StrStep.push [b, c] [d] := by
                rw [stringStep.eq_3, if_neg h1, if_neg h2, if_neg h3, if_pos h4, if_pos h5]
              rw [hstep]
              refine ⟨?_, ?_, ?_, ?_⟩
              · intro rest h
                exact StrStep.noConfusion h
              · intro bs rest h
                simp only [StrStep.push.injEq] at h
                obtain ⟨hb2, hr⟩ := h
                subst hr
                refine ⟨by simp only [List.length_cons, List.length_nil]; omega, ?_⟩
                intro hv
                cases hv <;> first | omega | assumption
              · intro rest h
                exact StrStep.noConfusion h
              · intro hv h
                exact StrStep.noConfusion h
            · -- not 128 ≤ c ∧ c ≤ 191
              have hstep : stringStep [b, c, d] = StrStep.dead := by
                rw [stringStep.eq_3, if_neg h1, if_neg h2, if_neg h3, if_pos h4, if_neg h5]
              rw [hstep]
              refine ⟨?_, ?_, ?_, ?_⟩
              · intro rest h
                exact StrStep.noConfusion h
              · intro bs rest h
                exact StrStep.noConfusion h
              · intro rest h
                exact StrStep.noConfusion h
              · intro hv
                exfalso
                cases hv <;> omega
          · -- not 192 ≤ b ∧ b ≤ 223
            by_cases h5 : 224 ≤ b ∧ b ≤ 239
            · -- 224 ≤ b ∧ b ≤ 239
              by_cases h6 : (128 ≤ c ∧ c ≤ 191) ∧ 128 ≤ d ∧ d ≤ 191
              · -- (128 ≤ c ∧ c ≤ 191) ∧ 128 ≤ d ∧ d ≤ 191
                have hstep : stringStep [b, c, d] = StrStep.push [b, c, d] [] := by
                  rw [stringStep.eq_3, if_neg h1, if_neg h2, if_neg h3, if_neg h4, if_pos h5, if_pos h6]
                rw [hstep]
                refine ⟨?_, ?_, ?_, ?_⟩
                · intro rest h
                  exact StrStep.noConfusion h
                · intro bs rest h
                  simp only [StrStep.push.injEq] at h
                  obtain ⟨hb2, hr⟩ := h
                  subst hr
                  refine ⟨by simp only [List.length_cons, List.length_nil]; omega, ?_⟩
                  intro hv
                  exact Utf8Valid.nil
                · intro rest h
                  exact StrStep.noConfusion h
                · intro hv h
                  exact StrStep.noConfusion h
              · -- not (128 ≤ c ∧ c ≤ 191) ∧ 128 ≤ d ∧ d ≤ 191
                have hstep : stringStep [b, c, d] = StrStep.dead := by
                  rw [stringStep.eq_3, if_neg h1, if_neg h2, if_neg h3, if_neg h4, if_pos h5, if_neg h6]
                rw [hstep]
                refine ⟨?_, ?_, ?_, ?_⟩
                · intro rest h
                  exact StrStep.noConfusion h
                · intro bs rest h
                  exact StrStep.noConfusion h
                · intro rest h
                  exact StrStep.noConfusion h
                · intro hv
                  exfalso
                  cases hv <;> omega
            · -- not 224 ≤ b ∧ b ≤ 239
              by_cases h6 : 240 ≤ b
              · -- 240 ≤ b
                have hstep : stringStep [b, c, d] = StrStep.dead := by
                  rw [stringStep.eq_3, if_neg h1, if_neg h2, if_neg h3, if_neg h4, if_neg h5, if_pos h6]
                rw [hstep]
                refine ⟨?_, ?_, ?_, ?_⟩
                · intro rest h
                  exact StrStep.noConfusion h
                · intro bs rest h
                  exact StrStep.noConfusion h
                · intro rest h
                  exact StrStep.noConfusion h
                · intro hv
                  exfalso
                  cases hv <;> omega
              · -- not 240 ≤ b
                have hstep : stringStep [b, c, d] = StrStep.dead := by
                  rw [stringStep.eq_3, if_neg h1, if_neg h2, if_neg h3, if_neg h4, if_neg h5, if_neg h6]
                rw [hstep]
                refine ⟨?_, ?_, ?_, ?_⟩
                · intro rest h
                  exact StrStep.noConfusion h
                · intro bs rest h
                  exact StrStep.noConfusion h
                · intro rest h
                  exact StrStep.noConfusion h
                · intro hv
                  exfalso
                  cases hv <;> omega
  | b :: c :: d :: e :: rest2 =>
    by_cases h1 : b = 34
    · -- b = 34
      have hstep : stringStep (b :: c :: d :: e :: rest2) = StrStep.close (c :: d :: e :: rest2) := by
        rw [stringStep.eq_2, if_pos h1]
      rw [hstep]
      refine ⟨?_, ?_, ?_, ?_⟩
      · intro rest h
        simp only [StrStep.close.injEq] at h
        subst h
        refine ⟨by simp only [List.length_cons, List.length_nil]; omega, ?_⟩
        intro hv
        exact hv.tail_ascii (by omega)
      · intro bs rest h
        exact StrStep.noConfusion h
      · intro rest h
        exact StrStep.noConfusion h
      · intro hv h
        exact StrStep.noConfusion h
    · -- not b = 34
      by_cases h2 : b = 92
      · -- b = 92
        by_cases h3 : c = 34
        · -- c = 34
          have hstep : stringStep (b :: c :: d :: e :: rest2) = StrStep.push [34] (d :: e :: rest2) := by
            rw [stringStep.eq_2, if_neg h1, if_pos h2, if_pos h3]
          rw [hstep]
          refine ⟨?_, ?_, ?_, ?_⟩
          · intro rest h
            exact StrStep.noConfusion h
          · intro bs rest h
            simp only [StrStep.push.injEq] at h
            obtain ⟨hb2, hr⟩ := h
            subst hr
            refine ⟨by simp only [List.length_cons, List.length_nil]; omega, ?_⟩
            intro hv
            exact (hv.tail_ascii (by omega)).tail_ascii (by omega)
          · intro rest h
            exact StrStep.noConfusion h
          · intro hv h
            exact StrStep.noConfusion h
        · -- not c = 34
          by_cases h4 : c = 92
          · -- c = 92
            have hstep : stringStep (b :: c :: d :: e :: rest2) = StrStep.push [92] (d :: e :: rest2) := by
              rw [stringStep.eq_2, if_neg h1, if_pos h2, if_neg h3, if_pos h4]
            rw [hstep]
            refine ⟨?_, ?_, ?_, ?_⟩
            · intro rest h
              exact StrStep.noConfusion h
            · intro bs rest h
              simp only [StrStep.push.injEq] at h
              obtain ⟨hb2, hr⟩ := h
              subst hr
              refine ⟨by simp only [List.length_cons, List.length_nil]; omega, ?_⟩
              intro hv
              exact (hv.tail_ascii (by omega)).tail_ascii (by omega)
            · intro rest h
              exact StrStep.noConfusion h
            · intro hv h
              exact StrStep.noConfusion h
          · -- not c = 92
            by_cases h5 : c = 47
            · -- c = 47
              have hstep : stringStep (b :: c :: d :: e :: rest2) = StrStep.push [47] (d :: e :: rest2) := by
                rw [stringStep.eq_2, if_neg h1, if_pos h2, if_neg h3, if_neg h4, if_pos h5]
              rw [hstep]
              refine ⟨?_, ?_, ?_, ?_⟩
              · intro rest h
                exact StrStep.noConfusion h
              · intro bs rest h
                simp only [StrStep.push.injEq] at h
                obtain ⟨hb2, hr⟩ := h
                subst hr
                refine ⟨by simp only [List.length_cons, List.length_nil]; omega, ?_⟩
                intro hv
                exact (hv.tail_ascii (by omega)).tail_ascii (by omega)
              · intro rest h
                exact StrStep.noConfusion h
              · intro hv h
                exact StrStep.noConfusion h
            · -- not c = 47
              by_cases h6 : c = 98
              · -- c = 98
                have hstep : stringStep (b :: c :: d :: e :: rest2) = StrStep.push [8] (d :: e :: rest2) := by
                  rw [stringStep.eq_2, if_neg h1, if_pos h2, if_neg h3, if_neg h4, if_neg h5, if_pos h6]
                rw [hstep]
                refine ⟨?_, ?_, ?_, ?_⟩
                · intro rest h
                  exact StrStep.noConfusion h
                · intro bs rest h
                  simp only [StrStep.push.injEq] at h
                  obtain ⟨hb2, hr⟩ := h
                  subst hr
                  refine ⟨by simp only [List.length_cons, List.length_nil]; omega, ?_⟩
                  intro hv
                  exact (hv.tail_ascii (by omega)).tail_ascii (by omega)
                · intro rest h
                  exact StrStep.noConfusion h
                · intro hv h
                  exact StrStep.noConfusion h
              · -- not c = 98
                by_cases h7 : c = 102
                · -- c = 102
                  have hstep : stringStep (b :: c :: d :: e :: rest2) = StrStep.push [12] (d :: e :: rest2) := by
                    rw [stringStep.eq_2, if_neg h1, if_pos h2, if_neg h3, if_neg h4, if_neg h5, if_neg h6, if_pos h7]
                  rw [hstep]
                  refine ⟨?_, ?_, ?_, ?_⟩
                  · intro rest h
                    exact StrStep.noConfusion h
                  · intro bs rest h
                    simp only [StrStep.push.injEq] at h
                    obtain ⟨hb2, hr⟩ := h
                    subst hr
                    refine ⟨by simp only [List.length_cons, List.length_nil]; omega, ?_⟩
                    intro hv
                    exact (hv.tail_ascii (by omega)).tail_ascii (by omega)
                  · intro rest h
                    exact StrStep.noConfusion h
                  · intro hv h
                    exact StrStep.noConfusion h
                · -- not c = 102
                  by_cases h8 : c = 110
                  · -- c = 110
                    have hstep : stringStep (b :: c :: d :: e :: rest2) = StrStep.push [10] (d :: e :: rest2) := by
                      rw [stringStep.eq_2, if_neg h1, if_pos h2, if_neg h3, if_neg h4, if_neg h5, if_neg h6, if_neg h7, if_pos h8]
                    rw [hstep]
                    refine ⟨?_, ?_, ?_, ?_⟩
                    · intro rest h
                      exact StrStep.noConfusion h
                    · intro bs rest h
                      simp only [StrStep.push.injEq] at h
                      obtain ⟨hb2, hr⟩ := h
                      subst hr
                      refine ⟨by simp only [List.length_cons, List.length_nil]; omega, ?_⟩
                      intro hv
                      exact (hv.tail_ascii (by omega)).tail_ascii (by omega)
                    · intro rest h
                      exact StrStep.noConfusion h
                    · intro hv h
                      exact StrStep.noConfusion h
                  · -- not c = 110
                    by_cases h9 : c = 114
                    · -- c = 114
                      have hstep : stringStep (b :: c :: d :: e :: rest2) = StrStep.push [13] (d :: e :: rest2) := by
                        rw [stringStep.eq_2, if_neg h1, if_pos h2, if_neg h3, if_neg h4, if_neg h5, if_neg h6, if_neg h7, if_neg h8, if_pos h9]
                      rw [hstep]
                      refine ⟨?_, ?_, ?_, ?_⟩
                      · intro rest h
                        exact StrStep.noConfusion h
                      · intro bs rest h
                        simp only [StrStep.push.injEq] at h
                        obtain ⟨hb2, hr⟩ := h
                        subst hr
                        refine ⟨by simp only [List.length_cons, List.length_nil]; omega, ?_⟩
                        intro hv
                        exact (hv.tail_ascii (by omega)).tail_ascii (by omega)
                      · intro rest h
                        exact StrStep.noConfusion h
                      · intro hv h
                        exact StrStep.noConfusion h
                    · -- not c = 114
                      by_cases h10 : c = 116
                      · -- c = 116
                        have hstep : stringStep (b :: c :: d :: e :: rest2) = StrStep.push [9] (d :: e :: rest2) := by
                          rw [stringStep.eq_2, if_neg h1, if_pos h2, if_neg h3, if_neg h4, if_neg h5, if_neg h6, if_neg h7, if_neg h8, if_neg h9, if_pos h10]
                        rw [hstep]
                        refine ⟨?_, ?_, ?_, ?_⟩
                        · intro rest h
                          exact StrStep.noConfusion h
                        · intro bs rest h
                          simp only [StrStep.push.injEq] at h
                          obtain ⟨hb2, hr⟩ := h
                          subst hr
                          refine ⟨by simp only [List.length_cons, List.length_nil]; omega, ?_⟩
                          intro hv
                          exact (hv.tail_ascii (by omega)).tail_ascii (by omega)
                        · intro rest h
                          exact StrStep.noConfusion h
                        · intro hv h
                          exact StrStep.noConfusion h
                      · -- not c = 116
                        by_cases h11 : c = 117
                        · -- c = 117
                          have hstep : stringStep (b :: c :: d :: e :: rest2) = StrStep.push (utf8Encode (unicode_escape (d :: e :: rest2)).1) (unicode_escape (d :: e :: rest2)).2 := by
                            rw [stringStep.eq_2, if_neg h1, if_pos h2, if_neg h3, if_neg h4, if_neg h5, if_neg h6, if_neg h7, if_neg h8, if_neg h9, if_neg h10, if_pos h11]
                          rw [hstep]
                          refine ⟨?_, ?_, ?_, ?_⟩
                          · intro rest h
                            exact StrStep.noConfusion h
                          · intro bs rest h
                            simp only [StrStep.push.injEq] at h
                            obtain ⟨hb2, hr⟩ := h
                            subst hr
                            constructor
                            · refine lt_of_le_of_lt (unicode_escape_length _) ?_
                              simp only [List.length_cons, List.length_nil]
                              omega
                            · intro hv
                              refine unicode_escape_valid ?_
                              first
                              | exact Utf8Valid.nil
                              | exact (hv.tail_ascii (by omega)).tail_ascii (by omega)
                          · intro rest h
                            exact StrStep.noConfusion h
                          · intro hv h
                            exact StrStep.noConfusion h
                        · -- not c = 117
                          have hstep : stringStep (b :: c :: d :: e :: rest2) = StrStep.push [92] (c :: d :: e :: rest2) := by
                            rw [stringStep.eq_2, if_neg h1, if_pos h2, if_neg h3, if_neg h4, if_neg h5, if_neg h6, if_neg h7, if_neg h8, if_neg h9, if_neg h10, if_neg h11]
                          rw [hstep]
                          refine ⟨?_, ?_, ?_, ?_⟩
                          · intro rest h
                            exact StrStep.noConfusion h
                          · intro bs rest h
                            simp only [StrStep.push.injEq] at h
                            obtain ⟨hb2, hr⟩ := h
                            subst hr
                            refine ⟨by simp only [List.length_cons, List.length_nil]; omega, ?_⟩
                            intro hv
                            exact hv.tail_ascii (by omega)
                          · intro rest h
                            exact StrStep.noConfusion h
                          · intro hv h
                            exact StrStep.noConfusion h
      · -- not b = 92
        by_cases h3 : b ≤ 127
        · -- b ≤ 127
          have hstep : stringStep (b :: c :: d :: e :: rest2) = StrStep.push [b] (c :: d :: e :: rest2) := by
            rw [stringStep.eq_2, if_neg h1, if_neg h2, if_pos h3]
          rw [hstep]
          refine ⟨?_, ?_, ?_, ?_⟩
          · intro rest h
            exact StrStep.noConfusion h
          · intro bs rest h
            simp only [StrStep.push.injEq] at h
            obtain ⟨hb2, hr⟩ := h
            subst hr
            refine ⟨by simp only [List.length_cons, List.length_nil]; omega, ?_⟩
            intro hv
            exact hv.tail_ascii (by omega)
          · intro rest h
            exact StrStep.noConfusion h
          · intro hv h
            exact StrStep.noConfusion h
        · -- not b ≤ 127
          by_cases h4 : 192 ≤ b ∧ b ≤ 223
          · -- 192 ≤ b ∧ b ≤ 223
            by_cases h5 : 128 ≤ c ∧ c ≤ 191
            · -- 128 ≤ c ∧ c ≤ 191
              have hstep : stringStep (b :: c :: d :: e :: rest2) = StrStep.push [b, c] (d :: e :: rest2) := by
                rw [stringStep.eq_2, if_neg h1, if_neg h2, if_neg h3, if_pos h4, if_pos h5]
              rw [hstep]
              refine ⟨?_, ?_, ?_, ?_⟩
              · intro rest h
                exact StrStep.noConfusion h
              · intro bs rest h
                simp only [StrStep.push.injEq] at h
                obtain ⟨hb2, hr⟩ := h
                subst hr
                refine ⟨by simp only [List.length_cons, List.length_nil]; omega, ?_⟩
                intro hv
                cases hv <;> first | omega | assumption
              · intro rest h
                exact StrStep.noConfusion h
              · intro hv h
                exact StrStep.noConfusion h
            · -- not 128 ≤ c ∧ c ≤ 191
              have hstep : stringStep (b :: c :: d :: e :: rest2) = StrStep.dead := by
                rw [stringStep.eq_2, if_neg h1, if_neg h2, if_neg h3, if_pos h4, if_neg h5]
              rw [hstep]
              refine ⟨?_, ?_, ?_, ?_⟩
              · intro rest h
                exact StrStep.noConfusion h
              · intro bs rest h
                exact StrStep.noConfusion h
              · intro rest h
                exact StrStep.noConfusion h
              · intro hv
                exfalso
                cases hv <;> omega
          · -- not 192 ≤ b ∧ b ≤ 223
            by_cases h5 : 224 ≤ b ∧ b ≤ 239
            · -- 224 ≤ b ∧ b ≤ 239
              by_cases h6 : (128 ≤ c ∧ c ≤ 191) ∧ 128 ≤ d ∧ d ≤ 191
              · -- (128 ≤ c ∧ c ≤ 191) ∧ 128 ≤ d ∧ d ≤ 191
                have hstep : stringStep (b :: c :: d :: e :: rest2) = StrStep.push [b, c, d] (e :: rest2) := by
                  rw [stringStep.eq_2, if_neg h1, if_neg h2, if_neg h3, if_neg h4, if_pos h5, if_pos h6]
                rw [hstep]
                refine ⟨?_, ?_, ?_, ?_⟩
                · intro rest h
                  exact StrStep.noConfusion h
                · intro bs rest h
                  simp only [StrStep.push.injEq] at h
                  obtain ⟨hb2, hr⟩ := h
                  subst hr
                  refine ⟨by simp only [List.length_cons, List.length_nil]; omega, ?_⟩
                  intro hv
                  cases hv <;> first | omega | assumption
                · intro rest h
                  exact StrStep.noConfusion h
                · intro hv h
                  exact StrStep.noConfusion h
              · -- not (128 ≤ c ∧ c ≤ 191) ∧ 128 ≤ d ∧ d ≤ 191
                have hstep : stringStep (b :: c :: d :: e :: rest2) = StrStep.dead := by
                  rw [stringStep.eq_2, if_neg h1, if_neg h2, if_neg h3, if_neg h4, if_pos h5, if_neg h6]
                rw [hstep]
                refine ⟨?_, ?_, ?_, ?_⟩
                · intro rest h
                  exact StrStep.noConfusion h
                · intro bs rest h
                  exact StrStep.noConfusion h
                · intro rest h
                  exact StrStep.noConfusion h
                · intro hv
                  exfalso
                  cases hv <;> omega
            · -- not 224 ≤ b ∧ b ≤ 239
              by_cases h6 : 240 ≤ b
              · -- 240 ≤ b
                by_cases h7 : (128 ≤ c ∧ c ≤ 191) ∧ (128 ≤ d ∧ d ≤ 191) ∧ 128 ≤ e ∧ e ≤ 191
                · -- (128 ≤ c ∧ c ≤ 191) ∧ (128 ≤ d ∧ d ≤ 191) ∧ 128 ≤ e ∧ e ≤ 191
                  have hstep : stringStep (b :: c :: d :: e :: rest2) = StrStep.push [b, c, d, e] rest2 := by
                    rw [stringStep.eq_2, if_neg h1, if_neg h2, if_neg h3, if_neg h4, if_neg h5, if_pos h6, if_pos h7]
                  rw [hstep]
                  refine ⟨?_, ?_, ?_, ?_⟩
                  · intro rest h
                    exact StrStep.noConfusion h
                  · intro bs rest h
                    simp only [StrStep.push.injEq] at h
                    obtain ⟨hb2, hr⟩ := h
                    subst hr
                    refine ⟨by simp only [List.length_cons, List.length_nil]; omega, ?_⟩
                    intro hv
                    cases hv <;> first | omega | assumption
                  · intro rest h
                    exact StrStep.noConfusion h
                  · intro hv h
                    exact StrStep.noConfusion h
                · -- not (128 ≤ c ∧ c ≤ 191) ∧ (128 ≤ d ∧ d ≤ 191) ∧ 128 ≤ e ∧ e ≤ 191
                  have hstep : stringStep (b :: c :: d :: e :: rest2) = StrStep.dead := by
                    rw [stringStep.eq_2, if_neg h1, if_neg h2, if_neg h3, if_neg h4, if_neg h5, if_pos h6, if_neg h7]
                  rw [hstep]
                  refine ⟨?_, ?_, ?_, ?_⟩
                  · intro rest h
                    exact StrStep.noConfusion h
                  · intro bs rest h
                    exact StrStep.noConfusion h
                  · intro rest h
                    exact StrStep.noConfusion h
                  · intro hv
                    exfalso
                    cases hv <;> omega
              · -- not 240 ≤ b
                have hstep : stringStep (b :: c :: d :: e :: rest2) = StrStep.dead := by
                  rw [stringStep.eq_2, if_neg h1, if_neg h2, if_neg h3, if_neg h4, if_neg h5, if_neg h6]
                rw [hstep]
                refine ⟨?_, ?_, ?_, ?_⟩
                · intro rest h
                  exact StrStep.noConfusion h
                · intro bs rest h
                  exact StrStep.noConfusion h
                · intro rest h
                  exact StrStep.noConfusion h
                · intro hv
                  exfalso
                  cases hv <;> omega

theorem string_close {fuel : Nat} {acc s r : List Nat}
    (h : stringStep s = .close r) :
    string (fuel + 1) acc s = some (.String acc, r) := by
  unfold string
  rw [h]

theorem string_err {fuel : Nat} {acc s r : List Nat}
    (h : stringStep s = .err r) :
    string (fuel + 1) acc s = some (.Error, r) := by
  unfold string
  rw [h]

theorem string_push {fuel : Nat} {acc s bs r : List Nat}
    (h : stringStep s = .push bs r) :
    string (fuel + 1) acc s = string fuel (acc ++ bs) r := by
  conv_lhs => unfold string
  rw [h]

/-- On a valid-UTF-8 suffix, `Lex::string` returns (no `unreachable!()` is
hit, and `token`'s fuel suffices), consumes only whole escapes and
codepoints (the rest is valid), never runs past the buffer, and never
produces an `End` kind. -/
theorem string_valid :
    ∀ fuel acc {s : List Nat}, s.length < fuel → Utf8Valid s →
      ∃ k rest, string fuel acc s = some (k, rest) ∧ Utf8Valid rest ∧
        rest.length ≤ s.length ∧ k ≠ TokenKind.End := by
  intro fuel
  induction fuel with
  | zero => intro acc s hlen hv; omega
  | succ fuel ih =>
    intro acc s hlen hv
    cases hstep : stringStep s with
    | close r =>
      have hm := (stringStep_master s).1 r hstep
      exact ⟨.String acc, r, string_close hstep, hm.2 hv, by omega, by simp⟩
    | err r =>
      have hr := (stringStep_master s).2.2.1 r hstep
      subst hr
      exact ⟨.Error, [], string_err hstep, .nil, by simp, by simp⟩
    | push bs r =>
      have hm := (stringStep_master s).2.1 bs r hstep
      obtain ⟨k, rest, hs, hvr, hlr, hk⟩ := ih (acc ++ bs) (by omega) (hm.2 hv)
      exact ⟨k, rest, (string_push hstep).trans hs, hvr, by omega, hk⟩
    | dead => exact absurd hstep ((stringStep_master s).2.2.2 hv)

end Lex

namespace Lex

theorem intDigits_spec :
    ∀ (s : List Nat) (sig : Nat),
      (intDigits sig s).2.length ≤ s.length ∧
        (Utf8Valid s → Utf8Valid (intDigits sig s).2) := by
  intro s
  induction s with
  | nil =>
    intro sig
    exact ⟨by simp [intDigits], fun hv => by simpa [intDigits] using hv⟩
  | cons b rest ih =>
    intro sig
    unfold intDigits
    by_cases hd : 0x30 ≤ b ∧ b ≤ 0x39
    · rw [if_pos hd]
      exact ⟨le_trans (ih _).1 (by simp),
        fun hv => (ih _).2 (hv.tail_ascii (by omega))⟩
    · rw [if_neg hd]
      exact ⟨by simp, fun hv => hv⟩

theorem fracDigits_spec :
    ∀ (s : List Nat) (sig : Nat) (e : Int) (any : Bool),
      (fracDigits sig e any s).2.2.2.length ≤ s.length ∧
        (Utf8Valid s → Utf8Valid (fracDigits sig e any s).2.2.2) := by
  intro s
  induction s with
  | nil =>
    intro sig e any
    exact ⟨by simp [fracDigits], fun hv => by simpa [fracDigits] using hv⟩
  | cons b rest ih =>
    intro sig e any
    unfold fracDigits
    by_cases hd : 0x30 ≤ b ∧ b ≤ 0x39
    · rw [if_pos hd]
      exact ⟨le_trans (ih _ _ _).1 (by simp),
        fun hv => (ih _ _ _).2 (hv.tail_ascii (by omega))⟩
    · rw [if_neg hd]
      exact ⟨by simp, fun hv => hv⟩

theorem expDigits_spec :
    ∀ (s : List Nat) (e : Int) (any : Bool),
      (expDigits e any s).2.2.length ≤ s.length ∧
        (Utf8Valid s → Utf8Valid (expDigits e any s).2.2) := by
  intro s
  induction s with
  | nil =>
    intro e any
    exact ⟨by simp [expDigits], fun hv => by simpa [expDigits] using hv⟩
  | cons b rest ih =>
    intro e any
    unfold expDigits
    by_cases hd : 0x30 ≤ b ∧ b ≤ 0x39
    · rw [if_pos hd]
      exact ⟨le_trans (ih _ _).1 (by simp),
        fun hv => (ih _ _).2 (hv.tail_ascii (by omega))⟩
    · rw [if_neg hd]
      exact ⟨by simp, fun hv => hv⟩

theorem expPart_spec (positive : Bool) (sig : Nat) (e : Int) (s : List Nat) :
    (expPart positive sig e s).2.length ≤ s.length ∧
      (Utf8Valid s → Utf8Valid (expPart positive sig e s).2) ∧
      (expPart positive sig e s).1 ≠ TokenKind.End := by
  unfold expPart
  match s with
  | [] =>
    simp only []
    have he := expDigits_spec [] 0 false
    split
    · exact ⟨by simpa using he.1, fun hv => he.2 .nil, by simp [finish]⟩
    · exact ⟨by simpa using he.1, fun hv => he.2 .nil, by simp⟩
  | b :: rest =>
    simp only []
    by_cases hp : b = 0x2B
    · rw [if_pos hp]
      have he := expDigits_spec rest 0 false
      split
      · exact ⟨le_trans he.1 (by simp),
          fun hv => he.2 (hv.tail_ascii (by omega)), by simp [finish]⟩
      · exact ⟨le_trans he.1 (by simp),
          fun hv => he.2 (hv.tail_ascii (by omega)), by simp⟩
    · rw [if_neg hp]
      by_cases hm : b = 0x2D
      · rw [if_pos hm]
        have he := expDigits_spec rest 0 false
        split
        · exact ⟨le_trans he.1 (by simp),
            fun hv => he.2 (hv.tail_ascii (by omega)), by simp [finish]⟩
        · exact ⟨le_trans he.1 (by simp),
            fun hv => he.2 (hv.tail_ascii (by omega)), by simp⟩
      · rw [if_neg hm]
        have he := expDigits_spec (b :: rest) 0 false
        split
        · exact ⟨he.1, fun hv => he.2 hv, by simp [finish]⟩
        · exact ⟨he.1, fun hv => he.2 hv, by simp⟩

theorem afterFrac_spec (positive : Bool) (sig : Nat) (e : Int) (s : List Nat) :
    (afterFrac positive sig e s).2.length ≤ s.length ∧
      (Utf8Valid s → Utf8Valid (afterFrac positive sig e s).2) ∧
      (afterFrac positive sig e s).1 ≠ TokenKind.End := by
  unfold afterFrac
  match s with
  | [] => exact ⟨by simp [finish], fun hv => by simpa [finish] using hv, by simp [finish]⟩
  | b :: rest =>
    simp only []
    by_cases hb : b = 0x65 ∨ b = 0x45
    · rw [if_pos hb]
      have he := expPart_spec positive sig e rest
      exact ⟨le_trans he.1 (by simp),
        fun hv => he.2.1 (hv.tail_ascii (by omega)), he.2.2⟩
    · rw [if_neg hb]
      exact ⟨by simp [finish], fun hv => by simpa [finish] using hv,
        by simp [finish]⟩

theorem afterInt_spec (positive : Bool) (sig : Nat) (s : List Nat) :
    (afterInt positive sig s).2.length ≤ s.length ∧
      (Utf8Valid s → Utf8Valid (afterInt positive sig s).2) ∧
      (afterInt positive sig s).1 ≠ TokenKind.End := by
  unfold afterInt
  match s with
  | [] =>
    simp only []
    split
    · have ha := afterFrac_spec positive sig 0 []
      exact ⟨by simpa using ha.1, fun hv => ha.2.1 .nil, ha.2.2⟩
    · exact ⟨by simp, fun hv => .nil, by simp⟩
  | b :: rest =>
    simp only []
    by_cases hdot : b = 0x2E
    · rw [if_pos hdot]
      have hf := fracDigits_spec rest sig 0 false
      split
      · have ha := afterFrac_spec positive (fracDigits sig 0 false rest).1
          (fracDigits sig 0 false rest).2.1 (fracDigits sig 0 false rest).2.2.2
        refine ⟨le_trans ha.1 (le_trans hf.1 (by simp)), ?_, ha.2.2⟩
        intro hv
        exact ha.2.1 (hf.2 (hv.tail_ascii (by omega)))
      · exact ⟨le_trans hf.1 (by simp),
          fun hv => hf.2 (hv.tail_ascii (by omega)), by simp⟩
    · rw [if_neg hdot]
      simp only []
      split
      · have ha := afterFrac_spec positive sig 0 (b :: rest)
        exact ⟨ha.1, ha.2.1, ha.2.2⟩
      · exact ⟨by simp, fun hv => hv, by simp⟩

theorem number_spec (s : List Nat) :
    (number s).2.length ≤ s.length ∧
      (Utf8Valid s → Utf8Valid (number s).2) ∧
      (number s).1 ≠ TokenKind.End := by
  unfold number
  match s with
  | [] => exact ⟨by simp, fun hv => .nil, by simp⟩
  | b :: rest =>
    simp only []
    by_cases hminus : b = 0x2D
    · rw [if_pos hminus]
      simp only []
      match rest with
      | [] => exact ⟨by simp, fun hv => .nil, by simp⟩
      | c :: rest2 =>
        simp only []
        by_cases hc0 : c = 0x30
        · rw [if_pos hc0]
          have ha := afterInt_spec false 0 rest2
          refine ⟨?_, ?_, ha.2.2⟩
          · have := ha.1; simp only [List.length_cons]; omega
          · intro hv
            exact ha.2.1 ((hv.tail_ascii (by omega)).tail_ascii (by omega))
        · rw [if_neg hc0]
          by_cases hc9 : 0x31 ≤ c ∧ c ≤ 0x39
          · rw [if_pos hc9]
            have hi := intDigits_spec rest2 (c - 0x30)
            have ha := afterInt_spec false (intDigits (c - 0x30) rest2).1
              (intDigits (c - 0x30) rest2).2
            refine ⟨?_, ?_, ha.2.2⟩
            · have h1 := ha.1; have h2 := hi.1
              simp only [List.length_cons]; omega
            · intro hv
              exact ha.2.1 (hi.2 ((hv.tail_ascii (by omega)).tail_ascii (by omega)))
          · rw [if_neg hc9]
            exact ⟨by simp only [List.length_cons]; omega,
              fun hv => hv.tail_ascii (by omega), by simp⟩
    · rw [if_neg hminus]
      simp only []
      by_cases hb0 : b = 0x30
      · rw [if_pos hb0]
        have ha := afterInt_spec true 0 rest
        refine ⟨?_, ?_, ha.2.2⟩
        · have := ha.1; simp only [List.length_cons]; omega
        · intro hv
          exact ha.2.1 (hv.tail_ascii (by omega))
      · rw [if_neg hb0]
        by_cases hb9 : 0x31 ≤ b ∧ b ≤ 0x39
        · rw [if_pos hb9]
          have hi := intDigits_spec rest (b - 0x30)
          have ha := afterInt_spec true (intDigits (b - 0x30) rest).1
            (intDigits (b - 0x30) rest).2
          refine ⟨?_, ?_, ha.2.2⟩
          · have h1 := ha.1; have h2 := hi.1
            simp only [List.length_cons]; omega
          · intro hv
            exact ha.2.1 (hi.2 (hv.tail_ascii (by omega)))
        · rw [if_neg hb9]
          exact ⟨le_refl _, fun hv => hv, by simp⟩

/-- When `Lex::token` enters `Lex::number` (first byte a minus sign or a
digit) the scanner consumes at least that first byte. -/
theorem number_progress {b : Nat} (rest : List Nat)
    (hb : b = 0x2D ∨ (0x30 ≤ b ∧ b ≤ 0x39)) :
    (number (b :: rest)).2.length ≤ rest.length := by
  unfold number
  simp only []
  by_cases hminus : b = 0x2D
  · rw [if_pos hminus]
    simp only []
    match rest with
    | [] => simp
    | c :: rest2 =>
      simp only []
      by_cases hc0 : c = 0x30
      · rw [if_pos hc0]
        have := (afterInt_spec false 0 rest2).1
        simp only [List.length_cons]; omega
      · rw [if_neg hc0]
        by_cases hc9 : 0x31 ≤ c ∧ c ≤ 0x39
        · rw [if_pos hc9]
          have h1 := (afterInt_spec false (intDigits (c - 0x30) rest2).1
            (intDigits (c - 0x30) rest2).2).1
          have h2 := (intDigits_spec rest2 (c - 0x30)).1
          simp only [List.length_cons]; omega
        · rw [if_neg hc9]
  · rw [if_neg hminus]
    simp only []
    have hd : 0x30 ≤ b ∧ b ≤ 0x39 := by omega
    by_cases hb0 : b = 0x30
    · rw [if_pos hb0]
      exact (afterInt_spec true 0 rest).1
    · rw [if_neg hb0]
      rw [if_pos (show 0x31 ≤ b ∧ b ≤ 0x39 by omega)]
      have h1 := (afterInt_spec true (intDigits (b - 0x30) rest).1
        (intDigits (b - 0x30) rest).2).1
      have h2 := (intDigits_spec rest (b - 0x30)).1
      omega

end Lex

namespace Lex

theorem Utf8Valid.suffixValid {s : List Nat} (h : Utf8Valid s) : SuffixValid s :=
  .valid h

theorem take_three_eq {a b c : Nat} {l : List Nat}
    (h : l.take 3 = [a, b, c]) : l = a :: b :: c :: l.drop 3 := by
  match l with
  | [] => simp at h
  | [x] => simp at h
  | [x, y] => simp at h
  | x :: y :: z :: t =>
    simp [List.take] at h
    simp [List.drop, h.1, h.2.1, h.2.2]

theorem take_four_eq {a b c d : Nat} {l : List Nat}
    (h : l.take 4 = [a, b, c, d]) : l = a :: b :: c :: d :: l.drop 4 := by
  match l with
  | [] => simp at h
  | [x] => simp at h
  | [x, y] => simp at h
  | [x, y, z] => simp at h
  | x :: y :: z :: w :: t =>
    simp [List.take] at h
    simp [List.drop, h.1, h.2.1, h.2.2.1, h.2.2.2]

/-- The whitespace loop of `Lex::token` only drops ASCII whitespace bytes:
it never lengthens the buffer and preserves the suffix invariant. -/
theorem skipWs_spec (s : List Nat) :
    (skipWs s).length ≤ s.length ∧
      (SuffixValid s → SuffixValid (skipWs s)) := by
  induction s with
  | nil => simp [skipWs]
  | cons b rest ih =>
    unfold skipWs
    by_cases hb : b = 0x20 ∨ b = 0x09 ∨ b = 0x0D ∨ b = 0x0A
    · rw [if_pos hb]
      refine ⟨le_trans ih.1 (by simp), fun hv => ih.2 ?_⟩
      exact .valid ((hv.utf8_of_head (by omega)).tail_ascii (by omega))
    · rw [if_neg hb]
      exact ⟨le_refl _, fun hv => hv⟩

/-- The token-kind dispatch of `Lex::token` on a suffix-valid buffer: it
always returns (the `unreachable!()` inside `Lex::string` is never hit),
preserves the suffix invariant, consumes at least one byte unless it
returns `End`, and returns `End` exactly at the end of the buffer. -/
theorem tokenKind_spec {s : List Nat} (h : SuffixValid s) :
    ∃ k rest, tokenKind s = some (k, rest) ∧ SuffixValid rest ∧
      (k ≠ TokenKind.End → rest.length < s.length) ∧
      (k = TokenKind.End → rest = []) := by
  match s with
  | [] =>
    exact ⟨.End, [], rfl, .valid .nil, fun hne => absurd rfl hne, fun _ => rfl⟩
  | b :: rest =>
    unfold tokenKind
    simp only []
    by_cases h1 : b = 0x7B
    · rw [if_pos h1]
      exact ⟨.LeftBrace, rest, rfl, h.tail, fun _ => by simp,
        fun hk => absurd hk (by decide)⟩
    rw [if_neg h1]
    by_cases h2 : b = 0x7D
    · rw [if_pos h2]
      exact ⟨.RightBrace, rest, rfl, h.tail, fun _ => by simp,
        fun hk => absurd hk (by decide)⟩
    rw [if_neg h2]
    by_cases h3 : b = 0x5B
    · rw [if_pos h3]
      exact ⟨.LeftBracket, rest, rfl, h.tail, fun _ => by simp,
        fun hk => absurd hk (by decide)⟩
    rw [if_neg h3]
    by_cases h4 : b = 0x5D
    · rw [if_pos h4]
      exact ⟨.RightBracket, rest, rfl, h.tail, fun _ => by simp,
        fun hk => absurd hk (by decide)⟩
    rw [if_neg h4]
    by_cases h5 : b = 0x3A
    · rw [if_pos h5]
      exact ⟨.Colon, rest, rfl, h.tail, fun _ => by simp,
        fun hk => absurd hk (by decide)⟩
    rw [if_neg h5]
    by_cases h6 : b = 0x2C
    · rw [if_pos h6]
      exact ⟨.Comma, rest, rfl, h.tail, fun _ => by simp,
        fun hk => absurd hk (by decide)⟩
    rw [if_neg h6]
    by_cases h7 : b = 0x22
    · rw [if_pos h7]
      have hvr : Utf8Valid rest :=
        (h.utf8_of_head (by omega)).tail_ascii (by omega)
      obtain ⟨k, r, hs, hvr2, hlr, hk⟩ :=
        string_valid (rest.length + 1) [] (by omega) hvr
      exact ⟨k, r, hs, .valid hvr2,
        fun _ => by simp only [List.length_cons]; omega,
        fun he => absurd he hk⟩
    rw [if_neg h7]
    by_cases h8 : b = 0x2D ∨ (0x30 ≤ b ∧ b ≤ 0x39)
    · rw [if_pos h8]
      have hvb : Utf8Valid (b :: rest) := h.utf8_of_head (by omega)
      have hn := number_spec (b :: rest)
      have hp := number_progress rest h8
      exact ⟨(number (b :: rest)).1, (number (b :: rest)).2, rfl,
        .valid (hn.2.1 hvb),
        fun _ => by simp only [List.length_cons]; omega,
        fun he => absurd he hn.2.2⟩
    rw [if_neg h8]
    by_cases h9 : b = 0x74
    · rw [if_pos h9]
      have hvb : Utf8Valid (b :: rest) := h.utf8_of_head (by omega)
      by_cases ht : rest.take 3 = [0x72, 0x75, 0x65]
      · rw [if_pos ht]
        have hshape := take_three_eq ht
        have hvr1 : Utf8Valid rest := hvb.tail_ascii (by omega)
        rw [hshape] at hvr1
        have hvr : Utf8Valid (rest.drop 3) :=
          ((hvr1.tail_ascii (by omega)).tail_ascii
            (by omega)).tail_ascii (by omega)
        refine ⟨.Bool true, rest.drop 3, rfl, .valid hvr, fun _ => ?_,
          fun hk => absurd hk (by decide)⟩
        have : (rest.drop 3).length ≤ rest.length := by simp
        simp only [List.length_cons]; omega
      · rw [if_neg ht]
        exact ⟨.Error, rest, rfl, h.tail, fun _ => by simp,
          fun hk => absurd hk (by decide)⟩
    rw [if_neg h9]
    by_cases h10 : b = 0x66
    · rw [if_pos h10]
      have hvb : Utf8Valid (b :: rest) := h.utf8_of_head (by omega)
      by_cases ht : rest.take 4 = [0x61, 0x6C, 0x73, 0x65]
      · rw [if_pos ht]
        have hshape := take_four_eq ht
        have hvr1 : Utf8Valid rest := hvb.tail_ascii (by omega)
        rw [hshape] at hvr1
        have hvr : Utf8Valid (rest.drop 4) :=
          (((hvr1.tail_ascii (by omega)).tail_ascii
            (by omega)).tail_ascii (by omega)).tail_ascii (by omega)
        refine ⟨.Bool false, rest.drop 4, rfl, .valid hvr, fun _ => ?_,
          fun hk => absurd hk (by decide)⟩
        have : (rest.drop 4).length ≤ rest.length := by simp
        simp only [List.length_cons]; omega
      · rw [if_neg ht]
        exact ⟨.Error, rest, rfl, h.tail, fun _ => by simp,
          fun hk => absurd hk (by decide)⟩
    rw [if_neg h10]
    by_cases h11 : b = 0x6E
    · rw [if_pos h11]
      have hvb : Utf8Valid (b :: rest) := h.utf8_of_head (by omega)
      by_cases ht : rest.take 3 = [0x75, 0x6C, 0x6C]
      · rw [if_pos ht]
        have hshape := take_three_eq ht
        have hvr1 : Utf8Valid rest := hvb.tail_ascii (by omega)
        rw [hshape] at hvr1
        have hvr : Utf8Valid (rest.drop 3) :=
          ((hvr1.tail_ascii (by omega)).tail_ascii
            (by omega)).tail_ascii (by omega)
        refine ⟨.Null, rest.drop 3, rfl, .valid hvr, fun _ => ?_,
          fun hk => absurd hk (by decide)⟩
        have : (rest.drop 3).length ≤ rest.length := by simp
        simp only [List.length_cons]; omega
      · rw [if_neg ht]
        exact ⟨.Error, rest, rfl, h.tail, fun _ => by simp,
          fun hk => absurd hk (by decide)⟩
    rw [if_neg h11]
    exact ⟨.Error, rest, rfl, h.tail, fun _ => by simp,
      fun hk => absurd hk (by decide)⟩

/-- `Lex::token` on a suffix-valid buffer: always returns a token,
preserves the suffix invariant, advances the cursor by at least one byte
for every non-`End` token, and returns `End` exactly when the remaining
buffer is whitespace (and then the new cursor is the empty suffix). -/
theorem token_spec {s : List Nat} (h : SuffixValid s) :
    ∃ t rest, token s = some (t, rest) ∧ SuffixValid rest ∧
      (t.kind ≠ TokenKind.End → rest.length < s.length) ∧
      (t.kind = TokenKind.End → rest = []) := by
  have hws := skipWs_spec s
  obtain ⟨k, rest, hk, hvr, hlt, hend⟩ := tokenKind_spec (hws.2 h)
  refine ⟨⟨(skipWs s).take ((skipWs s).length - rest.length), k⟩, rest,
    ?_, hvr, ?_, hend⟩
  · unfold token
    rw [hk]
  · intro hne
    exact lt_of_lt_of_le (hlt hne) hws.1

/-- Repeated `Lex::token` calls reach `End` within `length + 1` calls:
every non-`End` token consumes at least one byte. -/
theorem lexEnds_of_suffixValid :
    ∀ (n : Nat) {s : List Nat}, SuffixValid s → s.length < n →
      lexEnds n s = true := by
  intro n
  induction n with
  | zero => intro s _ hlen; omega
  | succ n ih =>
    intro s hv hlen
    obtain ⟨t, rest, ht, hvr, hlt, hend⟩ := token_spec hv
    unfold lexEnds
    rw [ht]
    simp only []
    by_cases hk : t.kind = TokenKind.End
    · rw [if_pos hk]
    · rw [if_neg hk]
      exact ih hvr (by have := hlt hk; omega)

end Lex

namespace Parse

/-- Unfolding of `Parse::value` once the first token is known. -/
theorem value_run {fuel : Nat} {source : List Nat} {t : Lex.Token}
    {s2 : List Nat} (htok : Lex.token source = some (t, s2)) :
    Parse.value fuel source =
      match Parse.state0 fuel t s2 with
      | .res t2 _ nt =>
        match t2.kind, nt with
        | .End, .Value v => .ok v
        | _, _ => .err
      | .panicked => .panicked
      | .fuelOut => .fuelOut := by
  unfold Parse.value
  rw [htok]

/-- Unfolding of `Parse::value` when the lexer itself fails. -/
theorem value_run_none {fuel : Nat} {source : List Nat}
    (htok : Lex.token source = none) : Parse.value fuel source = .panicked := by
  unfold Parse.value
  rw [htok]

end Parse

/-! ### Claims -/

/-- Claim C1: the spec says `Parse::value` always terminates with `Ok` or a
returned parse error, and that `parse("")` is a parse error with token kind
`End`.  The code instead panics: `Parse::state0` hits its
`panic!("unexpected token ...")` arm on any unexpected token, including a
premature `End`, so parsing the empty buffer panics rather than returning
an error. -/
theorem claim_C1 :
    (∀ fuel s, Parse.state0 fuel ⟨[], Lex.TokenKind.End⟩ s = .panicked) ∧
    Parse.value 32 (asciiBytes "") = .panicked ∧
    (∀ v, Parse.value 32 (asciiBytes "") ≠ .ok v) ∧
    Parse.value 32 (asciiBytes "") ≠ .err := by
  refine ⟨fun fuel s => rfl, rfl, fun v h => ?_, fun h => ?_⟩
  · rw [show Parse.value 32 (asciiBytes "") = .panicked from rfl] at h
    exact Parse.ValueOut.noConfusion h
  · rw [show Parse.value 32 (asciiBytes "") = .panicked from rfl] at h
    exact Parse.ValueOut.noConfusion h

/-- Claim C2: the spec says a failed parse returns an error carrying the
offending token's kind and byte span.  The code's `Parse::value` returns
`Result<json::Value, ()>`: its error payload is the unit value, so two
failing parses with different offending tokens and spans produce the very
same error value, and no kind or span can be recovered from it. -/
theorem claim_C2 :
    Parse.value 32 (asciiBytes "null null") = .err ∧
    Parse.value 32 (asciiBytes "[] 1") = .err ∧
    (∀ r1 r2 : Parse.ValueOut, r1 = .err → r2 = .err → r1 = r2) :=
  ⟨rfl, rfl, fun _ _ h1 h2 => h1.trans h2.symm⟩

theorem claim_C2_witness : (Parse.ValueOut.err = Parse.ValueOut.err) :=
  claim_C2.2.2 .err .err rfl rfl

/-- Claim C3: the spec says the lexer never fails on valid UTF-8, including
on `\uzzzz` and on numeric literals with arbitrarily many digits.  Under
release-profile (wrapping) arithmetic `Lex::token` indeed always returns a
token; but the same accumulations overflow: `16 * code_unit + digit`
exceeds `u16` on `\uzzzz` (the lexer accepts `a`–`z` as digits) and
`10 * significand + digit` exceeds `u64` on a 20-digit significand, so
under the overflow-checked (dev) profile these inputs panic instead of
producing a token. -/
theorem claim_C3 :
    (∀ s, Lex.SuffixValid s → ∃ t rest, Lex.token s = some (t, rest)) ∧
    Lex.code_unit (asciiBytes "zzzz") = (some 21843, []) ∧
    Lex.code_unit_checked (asciiBytes "zzzz") = none ∧
    Lex.intDigits_checked 9 (asciiBytes "9999999999999999999") = none := by
  refine ⟨fun s hv => ?_, by decide, by decide, by decide⟩
  obtain ⟨t, rest, ht, _⟩ := Lex.token_spec hv
  exact ⟨t, rest, ht⟩

theorem claim_C3_witness : ∃ t rest, Lex.token [] = some (t, rest) :=
  claim_C3.1 [] (.valid .nil)

/-- Claim C4: the spec says a `\uXXXX` escape is exactly 4 case-insensitive
hex digits and that a non-hex character among the four (e.g. `\u00G1`)
yields U+FFFD.  The code's digit arms accept all of `A`–`Z` and `a`–`z`:
`G` is accepted with value 16, so `"\u00G1"` decodes to U+0101 (UTF-8
`C4 81`), not U+FFFD.  The genuinely-hex example `"\u0041"` does parse to
`"A"`. -/
theorem claim_C4 :
    Lex.hexDigit 0x47 = some 16 ∧
    Lex.token (asciiBytes "\"\\u00G1\"") =
      some (⟨asciiBytes "\"\\u00G1\"", .String [0xC4, 0x81]⟩, []) ∧
    [0xC4, 0x81] ≠ [0xEF, 0xBF, 0xBD] ∧
    Lex.token (asciiBytes "\"\\u0041\"") =
      some (⟨asciiBytes "\"\\u0041\"", .String [0x41]⟩, []) :=
  ⟨rfl, rfl, by decide, rfl⟩

/-- Claim C5: surrogate pairing in `Lex::unicode_escape`.  A high surrogate
followed by a `\uXXXX` low surrogate combines into
`0x10000 + ((high - 0xD800) << 10 | (low - 0xDC00))`; a high surrogate not
followed by `\u` decodes alone to U+FFFD; a high surrogate followed by a
`\uXXXX` that is not a low surrogate decodes to U+FFFD with the second
escape consumed as part of the failed pairing.  Concretely,
`"\ud83d\ude00"` parses to the single codepoint U+1F600 (UTF-8
`F0 9F 98 80`), `"\ud800"` to U+FFFD, and `"\ud800\u0041"` to U+FFFD alone
(the `\u0041` is consumed, not reconsumed). -/
theorem claim_C5 :
    (∀ d1 d2 d3 d4 e1 e2 e3 e4 v1 v2 v3 v4 w1 w2 w3 w4 (rest : List Nat),
      Lex.hexDigit d1 = some v1 → Lex.hexDigit d2 = some v2 →
      Lex.hexDigit d3 = some v3 → Lex.hexDigit d4 = some v4 →
      Lex.hexDigit e1 = some w1 → Lex.hexDigit e2 = some w2 →
      Lex.hexDigit e3 = some w3 → Lex.hexDigit e4 = some w4 →
      v1 < 16 ∧ v2 < 16 ∧ v3 < 16 ∧ v4 < 16 →
      w1 < 16 ∧ w2 < 16 ∧ w3 < 16 ∧ w4 < 16 →
      0xD800 ≤ 4096 * v1 + 256 * v2 + 16 * v3 + v4 →
      4096 * v1 + 256 * v2 + 16 * v3 + v4 ≤ 0xDBFF →
      0xDC00 ≤ 4096 * w1 + 256 * w2 + 16 * w3 + w4 →
      4096 * w1 + 256 * w2 + 16 * w3 + w4 ≤ 0xDFFF →
      Lex.unicode_escape
          (d1 :: d2 :: d3 :: d4 :: 0x5C :: 0x75 ::
            e1 :: e2 :: e3 :: e4 :: rest) =
        (0x10000 +
          ((4096 * v1 + 256 * v2 + 16 * v3 + v4 - 0xD800) <<< 10 |||
            (4096 * w1 + 256 * w2 + 16 * w3 + w4 - 0xDC00)), rest)) ∧
    (∀ d1 d2 d3 d4 v1 v2 v3 v4 (rest : List Nat),
      Lex.hexDigit d1 = some v1 → Lex.hexDigit d2 = some v2 →
      Lex.hexDigit d3 = some v3 → Lex.hexDigit d4 = some v4 →
      v1 < 16 ∧ v2 < 16 ∧ v3 < 16 ∧ v4 < 16 →
      0xD800 ≤ 4096 * v1 + 256 * v2 + 16 * v3 + v4 →
      4096 * v1 + 256 * v2 + 16 * v3 + v4 ≤ 0xDBFF →
      rest.take 2 ≠ [0x5C, 0x75] →
      Lex.unicode_escape (d1 :: d2 :: d3 :: d4 :: rest) = (0xFFFD, rest)) ∧
    (∀ d1 d2 d3 d4 e1 e2 e3 e4 v1 v2 v3 v4 w1 w2 w3 w4 (rest : List Nat),
      Lex.hexDigit d1 = some v1 → Lex.hexDigit d2 = some v2 →
      Lex.hexDigit d3 = some v3 → Lex.hexDigit d4 = some v4 →
      Lex.hexDigit e1 = some w1 → Lex.hexDigit e2 = some w2 →
      Lex.hexDigit e3 = some w3 → Lex.hexDigit e4 = some w4 →
      v1 < 16 ∧ v2 < 16 ∧ v3 < 16 ∧ v4 < 16 →
      w1 < 16 ∧ w2 < 16 ∧ w3 < 16 ∧ w4 < 16 →
      0xD800 ≤ 4096 * v1 + 256 * v2 + 16 * v3 + v4 →
      4096 * v1 + 256 * v2 + 16 * v3 + v4 ≤ 0xDBFF →
      ¬ (0xDC00 ≤ 4096 * w1 + 256 * w2 + 16 * w3 + w4 ∧
        4096 * w1 + 256 * w2 + 16 * w3 + w4 ≤ 0xDFFF) →
      Lex.unicode_escape
          (d1 :: d2 :: d3 :: d4 :: 0x5C :: 0x75 ::
            e1 :: e2 :: e3 :: e4 :: rest) =
        (0xFFFD, rest)) ∧
    Parse.value 32 (asciiBytes "\"\\ud83d\\ude00\"") =
      .ok (.String [0xF0, 0x9F, 0x98, 0x80]) ∧
    Parse.value 32 (asciiBytes "\"\\ud800\"") =
      .ok (.String [0xEF, 0xBF, 0xBD]) ∧
    Parse.value 32 (asciiBytes "\"\\ud800\\u0041\"") =
      .ok (.String [0xEF, 0xBF, 0xBD]) := by
  refine ⟨?_, ?_, ?_, rfl, rfl, rfl⟩
  · intro d1 d2 d3 d4 e1 e2 e3 e4 v1 v2 v3 v4 w1 w2 w3 w4 rest
      hd1 hd2 hd3 hd4 he1 he2 he3 he4 hv hw hs1a hs1b hs2a hs2b
    exact Lex.unicode_escape_pair rest hd1 hd2 hd3 hd4 he1 he2 he3 he4
      hv hw hs1a hs1b hs2a hs2b
  · intro d1 d2 d3 d4 v1 v2 v3 v4 rest hd1 hd2 hd3 hd4 hv hs1a hs1b hnu
    exact Lex.unicode_escape_unpaired rest hd1 hd2 hd3 hd4 hv hs1a hs1b hnu
  · intro d1 d2 d3 d4 e1 e2 e3 e4 v1 v2 v3 v4 w1 w2 w3 w4 rest
      hd1 hd2 hd3 hd4 he1 he2 he3 he4 hv hw hs1a hs1b hs2
    exact Lex.unicode_escape_badLow rest hd1 hd2 hd3 hd4 he1 he2 he3 he4
      hv hw hs1a hs1b hs2

theorem claim_C5_witness :
    Lex.unicode_escape
        [0x64, 0x38, 0x33, 0x64, 0x5C, 0x75, 0x64, 0x65, 0x30, 0x30] =
      (0x10000 +
        ((4096 * 13 + 256 * 8 + 16 * 3 + 13 - 0xD800) <<< 10 |||
          (4096 * 13 + 256 * 14 + 16 * 0 + 0 - 0xDC00)), []) :=
  claim_C5.1 0x64 0x38 0x33 0x64 0x64 0x65 0x30 0x30 13 8 3 13 13 14 0 0 []
    rfl rfl rfl rfl rfl rfl rfl rfl
    ⟨by omega, by omega, by omega, by omega⟩
    ⟨by omega, by omega, by omega, by omega⟩
    (by omega) (by omega) (by omega) (by omega)

/-- Claim C6: the value of a `Number` token is computed by decimal digit
accumulation into the significand with a running exponent, then repeated
multiplication (positive exponent) or division (negative) by 10 exactly
`abs(exponent)` times, then sign application.  The repeated mul/div loop
computes exactly `significand * 10 ^ exponent` over the exact rationals of
this model, and concretely `parse("-0")` yields `-0.0` (negative-sign zero)
and `parse("13e5")` yields `1300000.0`. -/
theorem claim_C6 :
    (∀ (e : Int) (m : ℚ), Lex.iterMulDiv e.natAbs e m = m * (10 : ℚ) ^ e) ∧
    Parse.value 32 (asciiBytes "-0") = .ok (.Number ⟨true, 0⟩) ∧
    Parse.value 32 (asciiBytes "13e5") = .ok (.Number ⟨false, 1300000⟩) := by
  refine ⟨fun e m => Lex.iterMulDiv_eq e m, ?_, ?_⟩
  · have h1 : Parse.value 32 (asciiBytes "-0") =
        .ok (.Number ⟨true, Lex.iterMulDiv (Int.natAbs 0) 0 ((0 : Nat) : ℚ)⟩) :=
      rfl
    rw [h1]
    norm_num [Lex.iterMulDiv]
  · have h1 : Parse.value 32 (asciiBytes "13e5") =
        .ok (.Number ⟨false, Lex.iterMulDiv (Int.natAbs 5) 5 ((13 : Nat) : ℚ)⟩) :=
      rfl
    rw [h1]
    norm_num [Lex.iterMulDiv]

/-- Claim C7: duplicate object keys are accepted and the last occurrence
wins: inserting the same key twice leaves the value of the second insert,
and `parse("\x7b\"a\":1,\"a\":2\x7d")` yields an object with the single
key `"a"` mapped to `2`. -/
theorem claim_C7 :
    (∀ (o : json.Object) (k : List Nat) (v1 v2 : json.Value),
      ((o.insert k v1).insert k v2).get k = some v2) ∧
    Parse.value 32 (asciiBytes "\x7b\"a\":1,\"a\":2\x7d") =
      .ok (.Object [([0x61], .Number ⟨false, 2⟩)]) := by
  refine ⟨fun o k v1 v2 => json.Object.get_insert _ _ _, ?_⟩
  have h1 : Parse.value 32 (asciiBytes "\x7b\"a\":1,\"a\":2\x7d") =
      .ok (.Object
        [([0x61], .Number ⟨false, Lex.iterMulDiv (Int.natAbs 0) 0 ((2 : Nat) : ℚ)⟩)]) :=
    rfl
  rw [h1]
  norm_num [Lex.iterMulDiv]

/-- Claim C8: after producing a complete top-level value the parser pulls
exactly one more token and requires it to be `End`: when the final
lookahead is any other kind the parse returns the error and no value, and
a successful parse implies the final lookahead was `End`; concretely
`parse("true false")` is a parse error. -/
theorem claim_C8 :
    (∀ fuel source t s2 t2 s3 nt,
      Lex.token source = some (t, s2) →
      Parse.state0 fuel t s2 = .res t2 s3 nt →
      t2.kind ≠ Lex.TokenKind.End →
      Parse.value fuel source = .err) ∧
    (∀ fuel source v, Parse.value fuel source = .ok v →
      ∃ t s2 t2 s3, Lex.token source = some (t, s2) ∧
        Parse.state0 fuel t s2 = .res t2 s3 (.Value v) ∧
        t2.kind = Lex.TokenKind.End) ∧
    Parse.value 32 (asciiBytes "true false") = .err := by
  refine ⟨?_, ?_, rfl⟩
  · intro fuel source t s2 t2 s3 nt htok hst hne
    rw [Parse.value_run htok, hst]
    obtain ⟨sp2, k2⟩ := t2
    cases k2 <;> cases nt <;> first | rfl | exact absurd rfl hne
  · intro fuel source v h
    cases htok : Lex.token source with
    | none =>
      rw [Parse.value_run_none htok] at h
      exact absurd h (by simp)
    | some p =>
      obtain ⟨t, s2⟩ := p
      rw [Parse.value_run htok] at h
      cases hst : Parse.state0 fuel t s2 with
      | res t2 s3 nt =>
        rw [hst] at h
        obtain ⟨sp2, k2⟩ := t2
        cases k2 <;> cases nt <;> (try simp only [] at h) <;>
          first
          | exact Parse.ValueOut.noConfusion h
          | (cases h
             exact ⟨t, s2, ⟨sp2, .End⟩, s3, rfl, hst, rfl⟩)
      | panicked =>
        rw [hst] at h
        exact Parse.ValueOut.noConfusion h
      | fuelOut =>
        rw [hst] at h
        exact Parse.ValueOut.noConfusion h

theorem claim_C8_witness :
    Parse.value 32 (asciiBytes "null null") = .err ∧
    ∃ t s2 t2 s3, Lex.token (asciiBytes "null") = some (t, s2) ∧
      Parse.state0 32 t s2 = .res t2 s3 (.Value .Null) ∧
      t2.kind = Lex.TokenKind.End := by
  constructor
  · exact claim_C8.1 32 (asciiBytes "null null")
      ⟨[0x6E, 0x75, 0x6C, 0x6C], .Null⟩ [0x20, 0x6E, 0x75, 0x6C, 0x6C]
      ⟨[0x6E, 0x75, 0x6C, 0x6C], .Null⟩ [] (.Value .Null)
      rfl rfl (by decide)
  · exact claim_C8.2.1 32 (asciiBytes "null") .Null rfl

/-- Claim C9: on every (valid-UTF-8) buffer, repeated `Lex::token` calls
reach `End` within `length + 1` calls; every non-`End` token consumes at
least one byte; and once `End` is returned the cursor is the empty suffix,
from which every further call returns `End` again with the cursor
unchanged. -/
theorem claim_C9 :
    (∀ s, Lex.Utf8Valid s → Lex.lexEnds (s.length + 1) s = true) ∧
    (∀ s t rest, Lex.SuffixValid s → Lex.token s = some (t, rest) →
      t.kind ≠ Lex.TokenKind.End → rest.length < s.length) ∧
    (∀ s t rest, Lex.SuffixValid s → Lex.token s = some (t, rest) →
      t.kind = Lex.TokenKind.End →
      rest = [] ∧ Lex.token rest = some (⟨[], Lex.TokenKind.End⟩, [])) := by
  refine ⟨fun s hv => Lex.lexEnds_of_suffixValid _ (.valid hv) (by omega),
    ?_, ?_⟩
  · intro s t rest hv htok hne
    obtain ⟨t2, rest2, ht2, _, hlt, _⟩ := Lex.token_spec hv
    rw [htok] at ht2
    injection ht2 with hp
    injection hp with hpt hpr
    rw [← hpt] at hlt
    rw [← hpr] at hlt
    exact hlt hne
  · intro s t rest hv htok hke
    obtain ⟨t2, rest2, ht2, _, _, hend⟩ := Lex.token_spec hv
    rw [htok] at ht2
    injection ht2 with hp
    injection hp with hpt hpr
    have hr : rest = [] := by
      rw [hpr]
      exact hend (hpt ▸ hke)
    refine ⟨hr, ?_⟩
    rw [hr]
    rfl

theorem claim_C9_witness :
    Lex.lexEnds 5 [0x74, 0x72, 0x75, 0x65] = true ∧
    ([] : List Nat).length < [0x74, 0x72, 0x75, 0x65].length ∧
    ([] : List Nat) = [] ∧
    Lex.token ([] : List Nat) = some (⟨[], Lex.TokenKind.End⟩, []) := by
  have hv : Lex.Utf8Valid [0x74, 0x72, 0x75, 0x65] :=
    .ascii (by omega) (.ascii (by omega)
      (.ascii (by omega) (.ascii (by omega) .nil)))
  refine ⟨claim_C9.1 _ hv, ?_, ?_, ?_⟩
  · exact claim_C9.2.1 [0x74, 0x72, 0x75, 0x65]
      ⟨[0x74, 0x72, 0x75, 0x65], .Bool true⟩ [] (.valid hv) rfl (by decide)
  · exact (claim_C9.2.2 [] ⟨[], .End⟩ [] (.valid .nil) rfl rfl).1
  · exact (claim_C9.2.2 [] ⟨[], .End⟩ [] (.valid .nil) rfl rfl).2

/-- Claim C10: a backslash followed by a character that is not a
recognized escape character is not an error and is not replaced by U+FFFD:
the scanning loop's escape arms all fail and the backslash is consumed
alone by the literal-copy arm, so both bytes reach the decoded payload
unchanged; concretely `"\q"` lexes to the string payload `\q`. -/
theorem claim_C10 :
    (∀ c rest, c ≠ 0x22 → c ≠ 0x5C → c ≠ 0x2F → c ≠ 0x62 → c ≠ 0x66 →
      c ≠ 0x6E → c ≠ 0x72 → c ≠ 0x74 → c ≠ 0x75 →
      Lex.stringStep (0x5C :: c :: rest) = .push [0x5C] (c :: rest)) ∧
    Lex.token (asciiBytes "\"\\q\"") =
      some (⟨asciiBytes "\"\\q\"", .String [0x5C, 0x71]⟩, []) ∧
    [0x5C, 0x71] ≠ [0xEF, 0xBF, 0xBD] := by
  refine ⟨?_, rfl, by decide⟩
  intro c rest h1 h2 h3 h4 h5 h6 h7 h8 h9
  match rest with
  | [] =>
    rw [Lex.stringStep.eq_4, if_neg (by decide), if_pos rfl, if_neg h1,
      if_neg h2, if_neg h3, if_neg h4, if_neg h5, if_neg h6, if_neg h7,
      if_neg h8, if_neg h9]
  | [d] =>
    rw [Lex.stringStep.eq_3, if_neg (by decide), if_pos rfl, if_neg h1,
      if_neg h2, if_neg h3, if_neg h4, if_neg h5, if_neg h6, if_neg h7,
      if_neg h8, if_neg h9]
  | d :: e :: rest2 =>
    rw [Lex.stringStep.eq_2, if_neg (by decide), if_pos rfl, if_neg h1,
      if_neg h2, if_neg h3, if_neg h4, if_neg h5, if_neg h6, if_neg h7,
      if_neg h8, if_neg h9]

theorem claim_C10_witness :
    Lex.stringStep [0x5C, 0x71] = .push [0x5C] [0x71] :=
  claim_C10.1 0x71 [] (by decide) (by decide) (by decide) (by decide)
    (by decide) (by decide) (by decide) (by decide) (by decide)
